import Mathlib

/-!
# Receipt processor: points rule engine and receipt store

A shallow embedding of `main.go` (`calculatePoints`, `processReceipt`,
`getReceiptPoints`) together with the parts of the Go standard library the
rule engine calls (`strconv.ParseFloat`, `time.Parse`, `strings.TrimSpace`,
`math.Ceil`, float64 arithmetic and the float64/int conversions).

Conventions of the embedding:

* a Go `string` is a Lean `String`: a sequence of Unicode code points, which is
  what `encoding/json` hands to the handlers (it replaces invalid UTF-8);
  `len` is the length in UTF-8 bytes;
* a Go `int` is a 64-bit two's complement integer: an `Int` kept in
  `[-2^63, 2^63)` by `wrapInt` after every arithmetic operation;
* a `float64` is `F64`: NaN, the two infinities, or a finite value given by the
  rational number it denotes (the sign of zero is not tracked: no operation of
  the program distinguishes `-0` from `0`); arithmetic is exact arithmetic
  followed by IEEE 754 round-to-nearest-even (`F64.ofRat`);
* what the Go specification leaves to the implementation or to the Unicode
  version of the toolchain is a field of `Platform`.
-/

namespace ReceiptProcessor

/-! ## Go `int` -/

/-- Two's complement wrap-around of a mathematical integer into the range of a
64-bit Go `int`. -/
def wrapInt (z : Int) : Int := (z + 2 ^ 63) % 2 ^ 64 - 2 ^ 63

/-- Go `a + b` on `int`. -/
def addInt (a b : Int) : Int := wrapInt (a + b)

/-- Go `a * b` on `int`. -/
def mulInt (a b : Int) : Int := wrapInt (a * b)

/-- Go `len(s)` of a string: the number of bytes of its UTF-8 encoding. -/
def len (s : String) : Nat := s.utf8ByteSize

/-! ## float64 -/

/-- A `float64` value. A finite value is represented by the rational number it
denotes. -/
inductive F64 where
  | nan : F64
  | inf (neg : Bool) : F64
  | fin (q : ℚ) : F64
  deriving DecidableEq

namespace F64

/-- Binary logarithm of a natural number, rounded down, by repeated halving:
`acc` counts the halvings done and `fuel` bounds those left. -/
def log2Fuel : Nat → Nat → Nat → Nat
  | 0, _, acc => acc
  | fuel + 1, n, acc => if n < 2 then acc else log2Fuel fuel (n / 2) (acc + 1)

/-- The number `k` with `2^k ≤ n < 2^(k+1)`, for `n ≥ 1`. -/
def natLog2 (n : Nat) : Nat := log2Fuel n n 0

/-- The rational `b ^ e` for an integer exponent. -/
def ratPow (b : Nat) (e : Int) : ℚ :=
  if 0 ≤ e then ((b ^ e.toNat : Nat) : ℚ) else 1 / ((b ^ (-e).toNat : Nat) : ℚ)

/-- The integer `e` with `2^e ≤ q < 2^(e+1)`, for a positive rational `q`. -/
def ilog2 (q : ℚ) : Int :=
  let e0 : Int := (natLog2 q.num.natAbs : Int) - (natLog2 q.den : Int)
  if q < ratPow 2 e0 then e0 - 1 else e0

/-- Rounding of a rational to the nearest integer, ties to the even one. -/
def roundHalfEven (x : ℚ) : Int :=
  let f := ⌊x⌋
  let r := x - f
  if r < 1 / 2 then f else if 1 / 2 < r then f + 1 else if f % 2 = 0 then f else f + 1

/-- Rounding of a positive exact value to 53 significant bits, ties to even; the
exponent of the last place is at least `-1074` (subnormals). -/
def roundMagnitude (a : ℚ) : ℚ :=
  let p : Int := max (ilog2 a - 52) (-1074)
  (roundHalfEven (a / ratPow 2 p) : ℚ) * ratPow 2 p

/-- The float64 nearest to an exact value, ties to even (IEEE 754 binary64); a
magnitude that rounds to `2^1024` or more overflows to an infinity. -/
def ofRat (q : ℚ) : F64 :=
  if q = 0 then fin 0
  else
    let v : ℚ := roundMagnitude |q|
    if ratPow 2 1024 ≤ v then inf (decide (q < 0))
    else fin (if q < 0 then -v else v)

/-- Go `a * b` on `float64`. -/
def mul : F64 → F64 → F64
  | fin a, fin b => ofRat (a * b)
  | nan, _ => nan
  | _, nan => nan
  | inf s, inf t => inf (s != t)
  | inf s, fin b => if b = 0 then nan else inf (s != decide (b < 0))
  | fin a, inf t => if a = 0 then nan else inf (decide (a < 0) != t)

/-- Go `a == b` on `float64`: NaN differs from everything, itself included. -/
def eq : F64 → F64 → Bool
  | fin a, fin b => decide (a = b)
  | inf s, inf t => s == t
  | _, _ => false

/-- Truncation of a rational toward zero. -/
def trunc (q : ℚ) : Int := if 0 ≤ q then ⌊q⌋ else ⌈q⌉

/-- The part of the conversion `int(f)` that the Go specification defines: the
value truncated toward zero, when an `int` can represent it. -/
def truncToInt : F64 → Option Int
  | fin q => if -(2 : Int) ^ 63 ≤ trunc q ∧ trunc q < 2 ^ 63 then some (trunc q) else none
  | _ => none

/-- Go `float64(k)` for an `int` k: the nearest float64. -/
def ofInt (k : Int) : F64 := ofRat (k : ℚ)

/-- The finite values of float64: `M * 2^p` with `|M| ≤ 2^53`, `p ≥ -1074`, of
magnitude below `2^1024`. -/
def Representable (x : ℚ) : Prop :=
  ∃ M p : Int, |M| ≤ 2 ^ 53 ∧ -1074 ≤ p ∧ x = (M : ℚ) * 2 ^ p ∧ |x| < 2 ^ (1024 : Int)

end F64

/-! ## `strconv.ParseFloat(s, 64)` -/

namespace strconv

/-- The test `'0' <= c && c <= '9'`. -/
def isDecDigit (c : Char) : Bool := decide ('0' ≤ c) && decide (c ≤ '9')

/-- The test `'a' <= lower(c) && lower(c) <= 'f'`, where `lower(c) = c | 0x20`. -/
def isHexLetter (c : Char) : Bool :=
  (decide ('a' ≤ c) && decide (c ≤ 'f')) || (decide ('A' ≤ c) && decide (c ≤ 'F'))

/-- Value `c - '0'` of a decimal digit. -/
def decVal (c : Char) : Nat := c.toNat - '0'.toNat

/-- Value `lower(c) - 'a' + 10` of a hexadecimal letter. -/
def hexVal (c : Char) : Nat :=
  if 'a' ≤ c then c.toNat - 'a'.toNat + 10 else c.toNat - 'A'.toNat + 10

/-- Variables of the digit loop of `readFloat`: the digits read so far as a number
(`mantissa`, kept exact), how many of them are counted (`nd`), the position of the
decimal point (`dp`) and the flags. -/
structure Digits where
  mantissa : Nat
  nd : Nat
  dp : Int
  sawdot : Bool
  sawdigits : Bool
  underscores : Bool

/-- The digit loop of `readFloat` in base 10 (`hex = false`) or 16: consumes
underscores, one decimal point and digits, and returns the unread input. -/
def readDigits (hex : Bool) : List Char → Digits → Digits × List Char
  | [], st => (st, [])
  | c :: cs, st =>
    if c = '_' then readDigits hex cs { st with underscores := true }
    else if c = '.' then
      if st.sawdot then (st, c :: cs)
      else readDigits hex cs { st with sawdot := true, dp := st.nd }
    else if isDecDigit c then
      if c = '0' ∧ st.nd = 0 then
        readDigits hex cs { st with sawdigits := true, dp := st.dp - 1 }
      else
        readDigits hex cs { st with
          sawdigits := true, nd := st.nd + 1,
          mantissa := st.mantissa * (if hex then 16 else 10) + decVal c }
    else if hex && isHexLetter c then
      readDigits hex cs { st with
        sawdigits := true, nd := st.nd + 1, mantissa := st.mantissa * 16 + hexVal c }
    else (st, c :: cs)

/-- The exponent loop of `readFloat`: digits and underscores; the exponent stops
growing once it has reached 10000. Returns the exponent, whether an underscore was
seen, and the unread input. -/
def readExp : List Char → Nat → Bool → Nat × Bool × List Char
  | [], e, us => (e, us, [])
  | c :: cs, e, us =>
    if c = '_' then readExp cs e true
    else if isDecDigit c then readExp cs (if e < 10000 then e * 10 + decVal c else e) us
    else (e, us, c :: cs)

/-- The scan of `underscoreOK` over the number proper; `saw` is the class of the
last character seen: `'0'` a digit, `'_'` an underscore, `'!'` anything else,
`'^'` the start. -/
def underscoreScan (hex : Bool) : List Char → Char → Bool
  | [], saw => saw != '_'
  | c :: cs, saw =>
    if isDecDigit c || (hex && isHexLetter c) then underscoreScan hex cs '0'
    else if c = '_' then
      if saw != '0' then false else underscoreScan hex cs '_'
    else if saw = '_' then false
    else underscoreScan hex cs '!'

/-- Go `underscoreOK`: underscores appear only between digits, or between a base
prefix and a digit. -/
def underscoreOK (s : List Char) : Bool :=
  let s := match s with
    | '-' :: t => t
    | '+' :: t => t
    | _ => s
  match s with
  | '0' :: c :: t =>
    if c = 'b' ∨ c = 'B' ∨ c = 'o' ∨ c = 'O' ∨ c = 'x' ∨ c = 'X' then
      underscoreScan (decide (c = 'x' ∨ c = 'X')) t '0'
    else underscoreScan false s '^'
  | _ => underscoreScan false s '^'

/-- Go `commonPrefixLenIgnoreCase(s, prefix)` for a lower-case `prefix`. -/
def commonPrefixLenIgnoreCase : List Char → List Char → Nat
  | c :: cs, p :: ps =>
    let c := if 'A' ≤ c ∧ c ≤ 'Z' then Char.ofNat (c.toNat + 32) else c
    if c = p then commonPrefixLenIgnoreCase cs ps + 1 else 0
  | _, _ => 0

/-- The case `'i', 'I'` of `special`, on the input after an optional sign:
`inf` or `infinity`, ignoring case; `nsign` characters were consumed before. -/
def specialInf (neg : Bool) (nsign : Nat) (s : List Char) : Option (F64 × Nat) :=
  let n := commonPrefixLenIgnoreCase s "infinity".toList
  let n := if 3 < n ∧ n < 8 then 3 else n
  if n = 3 ∨ n = 8 then some (F64.inf neg, nsign + n) else none

/-- Go `special`: the value and the number of characters consumed when the input
starts with a possibly signed infinity or with `nan`. -/
def special (s : List Char) : Option (F64 × Nat) :=
  match s with
  | [] => none
  | '+' :: t => specialInf false 1 t
  | '-' :: t => specialInf true 1 t
  | c :: _ =>
    if c = 'i' ∨ c = 'I' then specialInf false 0 s
    else if c = 'n' ∨ c = 'N' then
      if commonPrefixLenIgnoreCase s "nan".toList = 3 then some (F64.nan, 3) else none
    else none

/-- Go `readFloat` followed by the exact value it denotes: the sign, the digits
with their point, and the optional exponent (decimal after `e`, binary and
mandatory after `p` for a `0x` number). Returns the exact value and the unread
input, or `none` for a syntax error. -/
def readFloat (s : List Char) : Option (ℚ × List Char) :=
  match s with
  | [] => none
  | _ =>
    let (neg, s1) := match s with
      | '+' :: t => (false, t)
      | '-' :: t => (true, t)
      | _ => (false, s)
    let (hex, s2) := match s1 with
      | '0' :: x :: c :: t => if x = 'x' ∨ x = 'X' then (true, c :: t) else (false, s1)
      | _ => (false, s1)
    let (st, s3) := readDigits hex s2 ⟨0, 0, 0, false, false, false⟩
    if !st.sawdigits then none
    else
      let dp : Int := if st.sawdot then st.dp else st.nd
      let dp : Int := if hex then dp * 4 else dp
      let ndMant : Int := if hex then st.nd * 4 else st.nd
      let finish (dp : Int) (underscores : Bool) (rest : List Char) : Option (ℚ × List Char) :=
        if underscores && !underscoreOK (s.take (s.length - rest.length)) then none
        else
          let exp : Int := dp - ndMant
          let v : ℚ := (st.mantissa : ℚ) * F64.ratPow (if hex then 2 else 10) exp
          some (if neg then -v else v, rest)
      match s3 with
      | c :: s4 =>
        if (hex ∧ (c = 'p' ∨ c = 'P')) ∨ (¬ hex ∧ (c = 'e' ∨ c = 'E')) then
          match s4 with
          | [] => none
          | d :: s5 =>
            let (esign, s6) : Int × List Char :=
              if d = '+' then (1, s5) else if d = '-' then (-1, s5) else (1, d :: s5)
            match s6 with
            | [] => none
            | d0 :: _ =>
              if !isDecDigit d0 then none
              else
                let (e, us, rest) := readExp s6 0 st.underscores
                finish (dp + e * esign) us rest
        else if hex then none
        else finish dp st.underscores s3
      | [] => if hex then none else finish dp st.underscores []

end strconv

/-- Go `strconv.ParseFloat(s, 64)`, with `none` for a non-nil error: the input is
NaN, an infinity, or a decimal or hexadecimal floating-point number; the result is
the nearest float64 (ties to even); a syntax error, unread input, or a value that
rounds beyond the largest float64 (`ErrRange`) is an error. -/
def strconv.ParseFloat (s : String) : Option F64 :=
  match strconv.special s.toList with
  | some (f, n) => if n = s.toList.length then some f else none
  | none =>
    match strconv.readFloat s.toList with
    | some (v, []) =>
      match F64.ofRat v with
      | F64.inf _ => none
      | f => some f
    | _ => none

/-! ## `math.Ceil`, `unicode.IsSpace`, `strings.TrimSpace` -/

/-- Go `math.Ceil`: the least integer value not below the argument; NaN and the
infinities are returned unchanged. -/
def math.Ceil : F64 → F64
  | F64.fin q => F64.fin (⌈q⌉ : ℚ)
  | f => f

/-- Go `unicode.IsSpace`: the code points with the Unicode property White_Space. -/
def unicode.IsSpace (c : Char) : Bool :=
  let n := c.toNat
  (decide (0x09 ≤ n) && decide (n ≤ 0x0D)) || n == 0x20 || n == 0x85 || n == 0xA0 ||
  n == 0x1680 || (decide (0x2000 ≤ n) && decide (n ≤ 0x200A)) || n == 0x2028 ||
  n == 0x2029 || n == 0x202F || n == 0x205F || n == 0x3000

/-- Go `strings.TrimSpace`: the string without its leading and trailing white
space. -/
def strings.TrimSpace (s : String) : String :=
  String.mk ((s.toList.dropWhile unicode.IsSpace).reverse.dropWhile unicode.IsSpace).reverse

/-- Go `strings.TrimPrefix(s, pre)`: `s` without the leading `pre`, or `s` itself when
it does not start with `pre`. -/
def strings.TrimPrefix (s pre : String) : String :=
  if pre.toList.isPrefixOf s.toList then String.mk (s.toList.drop pre.toList.length) else s

/-- Go `strings.TrimSuffix(s, suf)`: `s` without the trailing `suf`, or `s` itself when
it does not end with `suf`. -/
def strings.TrimSuffix (s suf : String) : String :=
  if suf.toList.isSuffixOf s.toList then
    String.mk (s.toList.take (s.toList.length - suf.toList.length))
  else s

/-! ## `time.Parse` for the two layouts of the program -/

namespace time

/-- The fields of a `time.Time` that the program reads back. -/
structure Time where
  year : Nat
  month : Nat
  day : Nat
  hour : Nat
  minute : Nat
  deriving DecidableEq

/-- Go `Time.Day`. -/
def Time.Day (t : Time) : Nat := t.day

/-- Go `Time.Hour`. -/
def Time.Hour (t : Time) : Nat := t.hour

/-- Go `Time.Minute`. -/
def Time.Minute (t : Time) : Nat := t.minute

/-- The test `'0' <= c && c <= '9'` of `isDigit`. -/
def isDigit (c : Char) : Bool := decide ('0' ≤ c) && decide (c ≤ '9')

/-- Value `c - '0'` of a digit. -/
def digit (c : Char) : Nat := c.toNat - '0'.toNat

/-- Go `getnum(s, fixed)`: a number of one or two digits at the start of `s`, of
exactly two digits when `fixed`; returns the number and the unread input. -/
def getnum (s : List Char) (fixed : Bool) : Option (Nat × List Char) :=
  match s with
  | [] => none
  | [a] => if !isDigit a then none else if fixed then none else some (digit a, [])
  | a :: b :: rest =>
    if !isDigit a then none
    else if !isDigit b then (if fixed then none else some (digit a, b :: rest))
    else some (digit a * 10 + digit b, rest)

/-- Go `isLeap`. -/
def isLeap (year : Nat) : Bool := year % 4 == 0 && (year % 100 != 0 || year % 400 == 0)

/-- Go `daysIn(m, year)`. -/
def daysIn (m year : Nat) : Nat :=
  if m = 2 ∧ isLeap year then 29
  else match m with
    | 1 => 31 | 2 => 28 | 3 => 31 | 4 => 30 | 5 => 31 | 6 => 30
    | 7 => 31 | 8 => 31 | 9 => 30 | 10 => 31 | 11 => 30 | 12 => 31
    | _ => 0

/-- Go `time.Parse("2006-01-02", value)`, with `none` for a non-nil error: four
digits of year, `-`, two digits of month in `1..12`, `-`, two digits of day, no
further text, and the day between 1 and the length of the month. -/
def ParseDate (value : String) : Option Time :=
  match value.toList with
  | y1 :: y2 :: y3 :: y4 :: '-' :: r =>
    if !(isDigit y1 && isDigit y2 && isDigit y3 && isDigit y4) then none
    else
      let year := digit y1 * 1000 + digit y2 * 100 + digit y3 * 10 + digit y4
      match getnum r true with
      | some (month, '-' :: r) =>
        if month ≤ 0 ∨ 12 < month then none
        else
          match getnum r true with
          | some (day, []) =>
            if day < 1 ∨ day > daysIn month year then none
            else some ⟨year, month, day, 0, 0⟩
          | _ => none
      | _ => none
  | _ => none

/-- Go `time.Parse("15:04", value)`, with `none` for a non-nil error: one or two
digits of hour below 24, `:`, two digits of minute below 60, no further text. The
date of the result is January 1 of year 0. -/
def ParseClock (value : String) : Option Time :=
  match getnum value.toList false with
  | some (hour, ':' :: r) =>
    if 24 ≤ hour then none
    else
      match getnum r true with
      | some (min, []) => if 60 ≤ min then none else some ⟨0, 1, 1, hour, min⟩
      | _ => none
  | _ => none

end time

/-! ## The program -/

/-- What the Go toolchain fixes and the program text does not: the tables behind
`unicode.IsLetter` and `unicode.IsDigit` (they follow the Unicode version), and the
result of converting to `int` a float64 that no `int` represents (NaN, an infinity,
a value outside `[-2^63, 2^63)`), which the Go specification leaves to the
implementation. -/
structure Platform where
  IsLetter : Char → Bool
  IsDigit : Char → Bool
  intOfUnrepresentable : F64 → Int

/-- Go `int(f)` for a float64 `f`. -/
def F64.toInt (pf : Platform) (f : F64) : Int :=
  match F64.truncToInt f with
  | some k => k
  | none => wrapInt (pf.intOfUnrepresentable f)

/-- Go `type Item`. -/
structure Item where
  ShortDescription : String
  Price : String

/-- Go `type Receipt`. -/
structure Receipt where
  Retailer : String
  PurchaseDate : String
  PurchaseTime : String
  Items : List Item
  Total : String

/-- Go `type ReceiptData`. -/
structure ReceiptData where
  ID : String
  Points : Int

/-- Go `calculatePoints`. Each `let points` is one statement of the source that
assigns to `points`. -/
def calculatePoints (pf : Platform) (receipt : Receipt) : Int :=
  let points : Int := 0
  -- One point for every alphanumeric character in the retailer name.
  let points := receipt.Retailer.toList.foldl
    (fun points r => if pf.IsLetter r || pf.IsDigit r then addInt points 1 else points) points
  let points :=
    match strconv.ParseFloat receipt.Total with
    | some floatVal =>
      -- 50 points if the total is a round dollar amount with no cents.
      let points :=
        if F64.eq (F64.ofInt (F64.toInt pf floatVal)) floatVal then addInt points 50 else points
      -- 25 points if the total is a multiple of 0.25.
      let points :=
        if Int.tmod (F64.toInt pf (F64.mul floatVal (F64.ofRat 100))) 25 = 0 then addInt points 25
        else points
      points
    | none => points
  -- 5 points for every two items on the receipt.
  let points := addInt points (mulInt ((receipt.Items.length : Int) / 2) 5)
  let points := receipt.Items.foldl
    (fun points item =>
      let descLength := len (strings.TrimSpace item.ShortDescription)
      if descLength % 3 = 0 then
        match strconv.ParseFloat item.Price with
        | some itemPrice =>
          addInt points (F64.toInt pf (math.Ceil (F64.mul itemPrice (F64.ofRat (2 / 10)))))
        | none => points
      else points) points
  -- 6 points if the day in the purchase date is odd.
  let points :=
    match time.ParseDate receipt.PurchaseDate with
    | some date => if date.Day % 2 ≠ 0 then addInt points 6 else points
    | none => points
  -- 10 points if the time is after 2:00pm and before 4:00pm.
  let points :=
    match time.ParseClock receipt.PurchaseTime with
    | some timeOfPurchase =>
      if timeOfPurchase.Hour = 14 ∨ (timeOfPurchase.Hour = 15 ∧ timeOfPurchase.Minute < 60) then
        addInt points 10
      else points
    | none => points
  points

/-- The store `receipts` (a `sync.Map`): a finite map from id to record. -/
abbrev Store := String → Option ReceiptData

/-- Go `receipts.Store(id, rData)`. -/
def Store.store (m : Store) (id : String) (rData : ReceiptData) : Store :=
  fun k => if k = id then some rData else m k

/-- Go `receipts.Load(id)`. -/
def Store.load (m : Store) (id : String) : Option ReceiptData := m id

/-- The response a handler writes: the status code with the JSON object or the
error text of the body. -/
inductive Response where
  | id (status : Nat) (id : String) : Response
  | points (status : Nat) (points : Int) : Response
  | error (status : Nat) (message : String) : Response
  deriving DecidableEq

/-- Go `processReceipt`, as a function of the store, of the result of decoding the
request body (`none` when the body is not valid JSON for a `Receipt`) and of the
identifier `uuid.New().String()` yields when it is called; returns the response and
the store afterwards. Writing the response is taken to succeed. -/
def processReceipt (pf : Platform) (receipts : Store) (uuid : String)
    (body : Option Receipt) : Response × Store :=
  match body with
  | none => (Response.error 400 "Invalid request payload", receipts)
  | some receipt =>
    if receipt.Retailer = "" ∨ receipt.Total = "" ∨ receipt.Items.length = 0 then
      (Response.error 400 "Missing required fields in receipt", receipts)
    else
      let points := calculatePoints pf receipt
      let id := uuid
      let rData : ReceiptData := ⟨id, points⟩
      (Response.id 200 id, receipts.store id rData)

/-- Go `getReceiptPoints`, as a function of the store and of the request path;
returns the response (the handler does not change the store). -/
def getReceiptPoints (receipts : Store) (path : String) : Response :=
  let id := strings.TrimPrefix path "/receipts/"
  let id := strings.TrimSuffix id "/points"
  match receipts.load id with
  | none => Response.error 404 "Not Found"
  | some receiptData => Response.points 200 receiptData.Points

/-! ## Sequences of requests -/

/-- The path of the lookup request for an identifier, as the client builds it
(`fmt.Sprintf("http://localhost:8080/receipts/%s/points", id)`). -/
def pointsPath (id : String) : String := "/receipts/" ++ id ++ "/points"

/-- The store when the process starts: the zero value of `sync.Map`. -/
def Store.empty : Store := fun _ => none

/-- One call of `processReceipt`: the identifier `uuid.New()` yields for it and the
decoded request body. -/
abbrev Submission := String × Option Receipt

/-- The store after a sequence of calls of `processReceipt`. -/
def submitAll (pf : Platform) (receipts : Store) : List Submission → Store
  | [] => receipts
  | s :: rest => submitAll pf (processReceipt pf receipts s.1 s.2).2 rest

/-- The identifiers that a sequence of calls of `processReceipt` returns to its
clients, one for each call answered with an id. -/
def returnedIds (pf : Platform) (receipts : Store) : List Submission → List String
  | [] => []
  | s :: rest =>
    match (processReceipt pf receipts s.1 s.2).1 with
    | Response.id _ id => id :: returnedIds pf (processReceipt pf receipts s.1 s.2).2 rest
    | _ => returnedIds pf (processReceipt pf receipts s.1 s.2).2 rest

/-! ## The rules one by one

The points each rule of `calculatePoints` contributes, as functions of the field
the rule reads. `calculatePoints_eq` shows that `calculatePoints` returns their sum,
reduced into the range of `int`. -/

/-- The retailer rule: the number of characters that are letters or digits. -/
def retailerPoints (pf : Platform) (retailer : String) : Int :=
  (retailer.toList.countP (fun r => pf.IsLetter r || pf.IsDigit r) : Nat)

/-- The two rules on the total. -/
def totalPoints (pf : Platform) (total : String) : Int :=
  match strconv.ParseFloat total with
  | some floatVal =>
    (if F64.eq (F64.ofInt (F64.toInt pf floatVal)) floatVal then 50 else 0) +
    (if Int.tmod (F64.toInt pf (F64.mul floatVal (F64.ofRat 100))) 25 = 0 then 25 else 0)
  | none => 0

/-- The description rule for one item. -/
def itemPoints (pf : Platform) (item : Item) : Int :=
  if len (strings.TrimSpace item.ShortDescription) % 3 = 0 then
    match strconv.ParseFloat item.Price with
    | some itemPrice => F64.toInt pf (math.Ceil (F64.mul itemPrice (F64.ofRat (2 / 10))))
    | none => 0
  else 0

/-- The odd-day rule. -/
def datePoints (purchaseDate : String) : Int :=
  match time.ParseDate purchaseDate with
  | some date => if date.Day % 2 ≠ 0 then 6 else 0
  | none => 0

/-- The afternoon rule. -/
def timePoints (purchaseTime : String) : Int :=
  match time.ParseClock purchaseTime with
  | some t => if t.Hour = 14 ∨ (t.Hour = 15 ∧ t.Minute < 60) then 10 else 0
  | none => 0

/-- The sum of the contributions of all rules, as a mathematical integer. -/
def pointsSum (pf : Platform) (receipt : Receipt) : Int :=
  retailerPoints pf receipt.Retailer + totalPoints pf receipt.Total +
    5 * ((receipt.Items.length : Int) / 2) + (receipt.Items.map (itemPoints pf)).sum +
    datePoints receipt.PurchaseDate + timePoints receipt.PurchaseTime

/-! ## The specification's wording of the odd-day rule -/

/-- The length of a month of the Gregorian calendar: February has 29 days in the
years divisible by 4 that are not divisible by 100, and in those divisible by 400. -/
def specDaysInMonth (year month : Nat) : Nat :=
  let leap : Bool := (year % 4 = 0 ∧ year % 100 ≠ 0) ∨ year % 400 = 0
  [31, if leap then 29 else 28, 31, 30, 31, 30, 31, 31, 30, 31, 30, 31].getD (month - 1) 0

/-- The odd-day condition in the words of the specification: the string is a calendar
date written `YYYY-MM-DD` (four digits, `-`, two digits, `-`, two digits; the month
in `1..12`; the day existing in that month) and its day of the month is odd. -/
def specOddCalendarDay (s : String) : Bool :=
  match s.toList with
  | [y1, y2, y3, y4, s1, m1, m2, s2, d1, d2] =>
    let year := (y1.toNat - 48) * 1000 + (y2.toNat - 48) * 100 + (y3.toNat - 48) * 10 +
      (y4.toNat - 48)
    let month := (m1.toNat - 48) * 10 + (m2.toNat - 48)
    let day := (d1.toNat - 48) * 10 + (d2.toNat - 48)
    y1.isDigit && y2.isDigit && y3.isDigit && y4.isDigit && s1 == '-' && m1.isDigit &&
      m2.isDigit && s2 == '-' && d1.isDigit && d2.isDigit &&
      decide (1 ≤ month) && decide (month ≤ 12) && decide (1 ≤ day) &&
      decide (day ≤ specDaysInMonth year month) && decide (day % 2 = 1)
  | _ => false

/-- A platform on which to evaluate examples: the letter and digit tables
restricted to ASCII, and the conversion of amd64 (`CVTTSD2SQ` yields `-2^63` for
every float64 no `int` represents). -/
def amd64 : Platform := ⟨Char.isAlpha, Char.isDigit, fun _ => -2 ^ 63⟩

/-! ## Arithmetic of `int` -/

theorem wrapInt_of_mem_range {a : Int} (h₁ : -2 ^ 63 ≤ a) (h₂ : a < 2 ^ 63) : wrapInt a = a := by
  unfold wrapInt
  norm_num at h₁ h₂ ⊢
  omega

theorem wrapInt_wrapInt_add (a b : Int) : wrapInt (wrapInt a + b) = wrapInt (a + b) := by
  unfold wrapInt
  norm_num
  omega

theorem wrapInt_add_wrapInt (a b : Int) : wrapInt (a + wrapInt b) = wrapInt (a + b) := by
  rw [add_comm, wrapInt_wrapInt_add, add_comm]

theorem wrapInt_wrapInt (a : Int) : wrapInt (wrapInt a) = wrapInt a := by
  simpa using wrapInt_wrapInt_add a 0

theorem wrapInt_lower (a : Int) : -2 ^ 63 ≤ wrapInt a := by
  unfold wrapInt
  norm_num
  omega

theorem wrapInt_upper (a : Int) : wrapInt a < 2 ^ 63 := by
  unfold wrapInt
  norm_num
  omega

theorem addInt_wrapInt (a b : Int) : addInt (wrapInt a) b = wrapInt (a + b) := by
  unfold addInt
  exact wrapInt_wrapInt_add a b

/-- One conditional statement `if c { points += k }`. -/
theorem ite_addInt_wrapInt (c : Prop) [Decidable c] (a k : Int) :
    (if c then addInt (wrapInt a) k else wrapInt a) = wrapInt (a + if c then k else 0) := by
  split <;> simp [addInt_wrapInt]

/-- The loop over the characters of the retailer. -/
theorem foldl_retailer (pf : Platform) (l : List Char) (a : Int) :
    l.foldl (fun points r => if pf.IsLetter r || pf.IsDigit r then addInt points 1 else points)
        (wrapInt a) =
      wrapInt (a + (l.countP (fun r => pf.IsLetter r || pf.IsDigit r) : Nat)) := by
  induction l generalizing a with
  | nil => simp
  | cons c cs ih =>
    simp only [List.foldl_cons, List.countP_cons]
    by_cases hc : (pf.IsLetter c || pf.IsDigit c) = true
    · rw [if_pos hc, addInt_wrapInt, ih, if_pos hc]
      congr 1
      push_cast
      ring
    · rw [if_neg hc, ih, if_neg hc]
      simp

/-- The loop over the items. -/
theorem foldl_items (pf : Platform) (l : List Item) (a : Int) :
    l.foldl
        (fun points item =>
          let descLength := len (strings.TrimSpace item.ShortDescription)
          if descLength % 3 = 0 then
            match strconv.ParseFloat item.Price with
            | some itemPrice =>
              addInt points (F64.toInt pf (math.Ceil (F64.mul itemPrice (F64.ofRat (2 / 10)))))
            | none => points
          else points) (wrapInt a) =
      wrapInt (a + (l.map (itemPoints pf)).sum) := by
  induction l generalizing a with
  | nil => simp
  | cons c cs ih =>
    simp only [List.foldl_cons, List.map_cons, List.sum_cons]
    have step : (if len (strings.TrimSpace c.ShortDescription) % 3 = 0 then
            match strconv.ParseFloat c.Price with
            | some itemPrice =>
              addInt (wrapInt a)
                (F64.toInt pf (math.Ceil (F64.mul itemPrice (F64.ofRat (2 / 10)))))
            | none => wrapInt a
          else wrapInt a) = wrapInt (a + itemPoints pf c) := by
      unfold itemPoints
      split
      · cases strconv.ParseFloat c.Price <;> simp [addInt_wrapInt]
      · simp
    rw [step, ih, add_assoc]

/-- The two statements on the total. -/
theorem stage_total (pf : Platform) (total : String) (a : Int) :
    (match strconv.ParseFloat total with
      | some floatVal =>
        if Int.tmod (F64.toInt pf (F64.mul floatVal (F64.ofRat 100))) 25 = 0 then
          addInt
            (if F64.eq (F64.ofInt (F64.toInt pf floatVal)) floatVal then addInt (wrapInt a) 50
              else wrapInt a) 25
        else
          if F64.eq (F64.ofInt (F64.toInt pf floatVal)) floatVal then addInt (wrapInt a) 50
          else wrapInt a
      | none => wrapInt a) = wrapInt (a + totalPoints pf total) := by
  unfold totalPoints
  cases strconv.ParseFloat total with
  | none => simp
  | some f =>
    simp only [ite_addInt_wrapInt]
    congr 1
    ring

/-- The statement on the purchase date. -/
theorem stage_date (purchaseDate : String) (a : Int) :
    (match time.ParseDate purchaseDate with
      | some date => if date.Day % 2 ≠ 0 then addInt (wrapInt a) 6 else wrapInt a
      | none => wrapInt a) = wrapInt (a + datePoints purchaseDate) := by
  unfold datePoints
  cases time.ParseDate purchaseDate with
  | none => simp
  | some d => simp only [ite_addInt_wrapInt]

/-- The statement on the purchase time. -/
theorem stage_time (purchaseTime : String) (a : Int) :
    (match time.ParseClock purchaseTime with
      | some timeOfPurchase =>
        if timeOfPurchase.Hour = 14 ∨ (timeOfPurchase.Hour = 15 ∧ timeOfPurchase.Minute < 60) then
          addInt (wrapInt a) 10
        else wrapInt a
      | none => wrapInt a) = wrapInt (a + timePoints purchaseTime) := by
  unfold timePoints
  cases time.ParseClock purchaseTime with
  | none => simp
  | some d => simp only [ite_addInt_wrapInt]

/-- The value `calculatePoints` returns is the sum of the contributions of the
rules, reduced into the range of `int`. -/
theorem calculatePoints_eq (pf : Platform) (receipt : Receipt) :
    calculatePoints pf receipt = wrapInt (pointsSum pf receipt) := by
  have h0 : ∀ l : List Char,
      l.foldl (fun points r => if pf.IsLetter r || pf.IsDigit r then addInt points 1 else points) 0 =
        wrapInt (0 + (l.countP (fun r => pf.IsLetter r || pf.IsDigit r) : Nat)) := by
    intro l
    have h := foldl_retailer pf l 0
    rwa [show wrapInt 0 = 0 by decide] at h
  unfold calculatePoints pointsSum
  simp only []
  rw [h0, stage_total, mulInt, addInt_wrapInt, wrapInt_add_wrapInt, foldl_items,
    stage_date, stage_time]
  congr 1
  unfold retailerPoints
  ring

/-! ## Rounding to float64 -/

theorem F64.log2Fuel_spec (fuel : Nat) :
    ∀ n acc : Nat, 1 ≤ n → n ≤ fuel →
      ∃ k, F64.log2Fuel fuel n acc = acc + k ∧ 2 ^ k ≤ n ∧ n < 2 ^ (k + 1) := by
  induction fuel with
  | zero => intro n acc h1 h2; omega
  | succ fuel ih =>
    intro n acc h1 h2
    unfold F64.log2Fuel
    by_cases hn : n < 2
    · exact ⟨0, by simp [hn], by simpa using h1, by simpa using hn⟩
    · rw [if_neg hn]
      obtain ⟨k, hk, hlo, hhi⟩ := ih (n / 2) (acc + 1) (by omega) (by omega)
      refine ⟨k + 1, by rw [hk]; ring, ?_, ?_⟩
      · rw [pow_succ]; omega
      · rw [pow_succ]; omega

theorem F64.natLog2_spec (n : Nat) (h : 1 ≤ n) :
    2 ^ F64.natLog2 n ≤ n ∧ n < 2 ^ (F64.natLog2 n + 1) := by
  obtain ⟨k, hk, hlo, hhi⟩ := F64.log2Fuel_spec n n 0 h le_rfl
  unfold F64.natLog2
  rw [hk]
  simpa using ⟨hlo, hhi⟩

theorem F64.ratPow_eq (b : Nat) (e : Int) : F64.ratPow b e = (b : ℚ) ^ e := by
  unfold F64.ratPow
  split
  · next h =>
    obtain ⟨n, rfl⟩ := Int.eq_ofNat_of_zero_le h
    simp
  · next h =>
    obtain ⟨n, rfl⟩ : ∃ n : Nat, e = -(n : Int) := ⟨(-e).toNat, by omega⟩
    simp

theorem F64.ilog2_spec (q : ℚ) (hq : 0 < q) :
    (2 : ℚ) ^ F64.ilog2 q ≤ q ∧ q < (2 : ℚ) ^ (F64.ilog2 q + 1) := by
  have hnum : 0 < q.num := Rat.num_pos.mpr hq
  have hn1 : 1 ≤ q.num.natAbs := by omega
  have hd1 : 1 ≤ q.den := q.den_pos
  obtain ⟨hnlo, hnhi⟩ := F64.natLog2_spec _ hn1
  obtain ⟨hdlo, hdhi⟩ := F64.natLog2_spec _ hd1
  set a := F64.natLog2 q.num.natAbs with ha
  set b := F64.natLog2 q.den with hb
  have hqeq : q = (q.num.natAbs : ℚ) / (q.den : ℚ) := by
    have h1 : ((q.num.natAbs : Int) : ℚ) = (q.num : ℚ) := by
      rw [Int.natAbs_of_nonneg hnum.le]
    have h2 := (Rat.num_div_den q).symm
    rw [← h1] at h2
    rw [Int.cast_natCast] at h2
    exact h2
  have hdpos : (0 : ℚ) < (q.den : ℚ) := by exact_mod_cast hd1
  have two_pos : (0 : ℚ) < 2 := by norm_num
  have hlo : (2 : ℚ) ^ ((a : Int) - b - 1) < q := by
    rw [hqeq, lt_div_iff₀ hdpos]
    have h1 : (q.den : ℚ) < 2 ^ (b + 1) := by exact_mod_cast hdhi
    have h2 : (2 : ℚ) ^ a ≤ (q.num.natAbs : ℚ) := by exact_mod_cast hnlo
    have h3 : (2 : ℚ) ^ ((a : Int) - b - 1) * 2 ^ (b + 1) = 2 ^ a := by
      rw [← zpow_natCast, ← zpow_natCast, ← zpow_add₀ two_pos.ne']
      congr 1
      push_cast
      ring
    calc (2 : ℚ) ^ ((a : Int) - b - 1) * (q.den : ℚ)
        < (2 : ℚ) ^ ((a : Int) - b - 1) * 2 ^ (b + 1) :=
          mul_lt_mul_of_pos_left h1 (zpow_pos two_pos _)
      _ = 2 ^ a := h3
      _ ≤ _ := h2
  have hhi : q < (2 : ℚ) ^ ((a : Int) - b + 1) := by
    rw [hqeq, div_lt_iff₀ hdpos]
    have h1 : (2 : ℚ) ^ b ≤ (q.den : ℚ) := by exact_mod_cast hdlo
    have h2 : (q.num.natAbs : ℚ) < (2 : ℚ) ^ (a + 1) := by exact_mod_cast hnhi
    have h3 : (2 : ℚ) ^ ((a : Int) - b + 1) * 2 ^ b = 2 ^ (a + 1) := by
      rw [← zpow_natCast, ← zpow_natCast, ← zpow_add₀ two_pos.ne']
      congr 1
      push_cast
      ring
    calc (q.num.natAbs : ℚ) < (2 : ℚ) ^ (a + 1) := h2
      _ = (2 : ℚ) ^ ((a : Int) - b + 1) * 2 ^ b := h3.symm
      _ ≤ (2 : ℚ) ^ ((a : Int) - b + 1) * (q.den : ℚ) :=
          mul_le_mul_of_nonneg_left h1 (zpow_pos two_pos _).le
  unfold F64.ilog2
  simp only [← ha, ← hb, F64.ratPow_eq, Nat.cast_ofNat]
  split
  · next h =>
    refine ⟨hlo.le, ?_⟩
    simpa using h
  · next h =>
    exact ⟨not_lt.mp h, hhi⟩

theorem F64.roundHalfEven_nonneg (x : ℚ) (h : 0 ≤ x) : 0 ≤ F64.roundHalfEven x := by
  have hf : 0 ≤ ⌊x⌋ := Int.floor_nonneg.mpr h
  unfold F64.roundHalfEven
  simp only []
  split_ifs <;> omega

theorem F64.roundHalfEven_le (x : ℚ) (N : Int) (h : x ≤ N) : F64.roundHalfEven x ≤ N := by
  have hf : ⌊x⌋ ≤ N := Int.floor_le_iff.mpr (by linarith [Int.lt_floor_add_one x])
  have hfx : (⌊x⌋ : ℚ) ≤ x := Int.floor_le x
  by_cases hN : ⌊x⌋ = N
  · have hx : x - ⌊x⌋ = 0 := by
      rw [hN] at hfx ⊢
      linarith
    unfold F64.roundHalfEven
    simp only [hx]
    norm_num
    omega
  · have : ⌊x⌋ + 1 ≤ N := by omega
    unfold F64.roundHalfEven
    simp only []
    split_ifs <;> omega

/-- Rounding does not carry a value across a power of two. -/
theorem F64.roundMagnitude_le (a : ℚ) (K : Nat) (h0 : 0 < a) (hK : a ≤ 2 ^ K) :
    0 ≤ F64.roundMagnitude a ∧ F64.roundMagnitude a ≤ 2 ^ K := by
  have two_pos : (0 : ℚ) < 2 := by norm_num
  obtain ⟨hlo, -⟩ := F64.ilog2_spec a h0
  have he : F64.ilog2 a ≤ K := by
    by_contra hcon
    have h1 : (K : Int) + 1 ≤ F64.ilog2 a := by omega
    have h2 : (2 : ℚ) ^ ((K : Int) + 1) ≤ 2 ^ F64.ilog2 a :=
      zpow_le_zpow_right₀ (by norm_num) h1
    have h3 : (2 : ℚ) ^ (K : Int) < 2 ^ ((K : Int) + 1) :=
      zpow_lt_zpow_right₀ (by norm_num) (by omega)
    rw [zpow_natCast] at h3
    linarith
  unfold F64.roundMagnitude
  simp only [F64.ratPow_eq, Nat.cast_ofNat]
  set p : Int := max (F64.ilog2 a - 52) (-1074) with hp
  have hpK : p ≤ K := by
    rw [hp]
    omega
  have hppos : (0 : ℚ) < 2 ^ p := zpow_pos two_pos _
  obtain ⟨n, hn⟩ : ∃ n : Nat, (K : Int) - p = n := ⟨((K : Int) - p).toNat, by omega⟩
  have hsplit : (2 : ℚ) ^ K = 2 ^ n * 2 ^ p := by
    rw [← zpow_natCast, ← zpow_natCast, ← zpow_add₀ two_pos.ne']
    congr 1
    omega
  have hdiv : a / 2 ^ p ≤ ((2 ^ n : Int) : ℚ) := by
    rw [div_le_iff₀ hppos]
    push_cast
    rw [← hsplit]
    exact hK
  have hM := F64.roundHalfEven_le _ _ hdiv
  have hM0 := F64.roundHalfEven_nonneg (a / 2 ^ p) (div_nonneg h0.le hppos.le)
  constructor
  · exact mul_nonneg (by exact_mod_cast hM0) hppos.le
  · rw [hsplit]
    apply mul_le_mul_of_nonneg_right _ hppos.le
    exact_mod_cast hM

/-- A value of magnitude at most `2^K`, `K < 1024`, rounds to a finite float64 of
magnitude at most `2^K` and of the same sign. -/
theorem F64.ofRat_abs_le (x : ℚ) (K : Nat) (hK : K < 1024) (hx : |x| ≤ 2 ^ K) :
    ∃ v, F64.ofRat x = F64.fin v ∧ |v| ≤ 2 ^ K ∧ (0 ≤ x → 0 ≤ v) ∧ (x ≤ 0 → v ≤ 0) := by
  by_cases h0 : x = 0
  · subst h0
    exact ⟨0, by simp [F64.ofRat], by simp, by simp, by simp⟩
  · have hpos : 0 < |x| := abs_pos.mpr h0
    obtain ⟨hv0, hvK⟩ := F64.roundMagnitude_le |x| K hpos hx
    have hlt : (2 : ℚ) ^ K < 2 ^ (1024 : Nat) := pow_lt_pow_right₀ (by norm_num) hK
    have hno : ¬ F64.ratPow 2 1024 ≤ F64.roundMagnitude |x| := by
      rw [F64.ratPow_eq]
      norm_num at hlt ⊢
      linarith
    unfold F64.ofRat
    simp only [h0, if_false, hno]
    by_cases hneg : x < 0
    · refine ⟨-F64.roundMagnitude |x|, by simp [hneg], ?_, ?_, ?_⟩
      · rw [abs_neg, abs_of_nonneg hv0]; exact hvK
      · intro h; linarith
      · intro _; linarith
    · refine ⟨F64.roundMagnitude |x|, by simp [hneg], ?_, ?_, ?_⟩
      · rw [abs_of_nonneg hv0]; exact hvK
      · intro _; exact hv0
      · intro h
        exact absurd (lt_of_le_of_ne h h0) hneg

/-! ### Values that float64 represents -/

theorem F64.roundHalfEven_intCast (n : Int) : F64.roundHalfEven (n : ℚ) = n := by
  unfold F64.roundHalfEven
  simp

theorem F64.ilog2_unique (x : ℚ) (e : Int) (h0 : 0 < x) (h1 : (2 : ℚ) ^ e ≤ x)
    (h2 : x < (2 : ℚ) ^ (e + 1)) : F64.ilog2 x = e := by
  obtain ⟨hlo, hhi⟩ := F64.ilog2_spec x h0
  have a1 : F64.ilog2 x < e + 1 := by
    by_contra hcon
    have : (2 : ℚ) ^ (e + 1) ≤ 2 ^ F64.ilog2 x :=
      zpow_le_zpow_right₀ (by norm_num) (by omega)
    linarith
  have a2 : e < F64.ilog2 x + 1 := by
    by_contra hcon
    have : (2 : ℚ) ^ (F64.ilog2 x + 1) ≤ 2 ^ e :=
      zpow_le_zpow_right₀ (by norm_num) (by omega)
    linarith
  omega

/-- A positive value `M * 2^p` with `M ≤ 2^53` and `p ≥ -1074` is not changed by
rounding. -/
theorem F64.roundMagnitude_of_scaled (M : Int) (p : Int) (hM0 : 0 < M) (hM : M ≤ 2 ^ 53)
    (hp : -1074 ≤ p) : F64.roundMagnitude ((M : ℚ) * 2 ^ p) = (M : ℚ) * 2 ^ p := by
  have two_pos : (0 : ℚ) < 2 := by norm_num
  have hppos : (0 : ℚ) < 2 ^ p := zpow_pos two_pos _
  have hMq : (0 : ℚ) < (M : ℚ) := by exact_mod_cast hM0
  have hx0 : (0 : ℚ) < (M : ℚ) * 2 ^ p := mul_pos hMq hppos
  unfold F64.roundMagnitude
  simp only [F64.ratPow_eq, Nat.cast_ofNat]
  set x : ℚ := (M : ℚ) * 2 ^ p with hx
  set p' : Int := max (F64.ilog2 x - 52) (-1074) with hp'
  have hp'pos : (0 : ℚ) < 2 ^ p' := zpow_pos two_pos _
  -- the quotient by the unit of the last place is an integer
  have hint : ∃ K : Int, x / 2 ^ p' = (K : ℚ) := by
    by_cases hlt : M < 2 ^ 53
    · -- the last place of x is at most p
      have hxlt : x < (2 : ℚ) ^ (p + 53) := by
        rw [hx, zpow_add₀ two_pos.ne', mul_comm]
        apply mul_lt_mul_of_pos_left _ hppos
        exact_mod_cast hlt
      obtain ⟨hlo, -⟩ := F64.ilog2_spec x hx0
      have he : F64.ilog2 x < p + 53 := by
        by_contra hcon
        have : (2 : ℚ) ^ (p + 53) ≤ 2 ^ F64.ilog2 x :=
          zpow_le_zpow_right₀ (by norm_num) (by omega)
        linarith
      have hpp : p' ≤ p := by
        rw [hp']
        omega
      obtain ⟨n, hn⟩ : ∃ n : Nat, p - p' = n := ⟨(p - p').toNat, by omega⟩
      refine ⟨M * 2 ^ n, ?_⟩
      rw [hx, div_eq_iff hp'pos.ne']
      push_cast
      rw [mul_assoc, ← zpow_natCast, ← zpow_add₀ two_pos.ne']
      congr 2
      omega
    · -- M = 2^53: x is a power of two
      have hMeq : M = 2 ^ 53 := by omega
      have hxeq : x = (2 : ℚ) ^ (p + 53) := by
        rw [hx, hMeq, zpow_add₀ two_pos.ne', mul_comm]
        norm_num
      have he : F64.ilog2 x = p + 53 := by
        apply F64.ilog2_unique x (p + 53) hx0
        · rw [hxeq]
        · rw [hxeq]
          exact zpow_lt_zpow_right₀ (by norm_num) (by omega)
      have hpp : p' = p + 1 := by
        rw [hp', he]
        omega
      refine ⟨2 ^ 52, ?_⟩
      rw [hxeq, hpp, div_eq_iff (zpow_pos two_pos _).ne',
        show (((2 ^ 52 : Int)) : ℚ) = (2 : ℚ) ^ (52 : Int) by norm_num,
        ← zpow_add₀ two_pos.ne']
      congr 1
      omega
  obtain ⟨K, hK⟩ := hint
  rw [hK, F64.roundHalfEven_intCast, ← hK, div_mul_cancel₀ _ hp'pos.ne']

/-- Rounding leaves a float64 value as it is. -/
theorem F64.ofRat_of_representable (x : ℚ) (h : F64.Representable x) :
    F64.ofRat x = F64.fin x := by
  obtain ⟨M, p, hM, hp, hx, hbig⟩ := h
  by_cases h0 : x = 0
  · subst h0
    simp [F64.ofRat]
  · have two_pos : (0 : ℚ) < 2 := by norm_num
    have hppos : (0 : ℚ) < 2 ^ p := zpow_pos two_pos _
    have hM0 : M ≠ 0 := by
      rintro rfl
      simp at hx
      exact h0 hx
    have habs : |x| = ((|M| : Int) : ℚ) * 2 ^ p := by
      rw [hx, abs_mul, abs_of_pos hppos]
      simp
    have hmag : F64.roundMagnitude |x| = |x| := by
      rw [habs]
      exact F64.roundMagnitude_of_scaled |M| p (abs_pos.mpr hM0) hM hp
    unfold F64.ofRat
    rw [if_neg h0]
    simp only [hmag]
    have hno : ¬ F64.ratPow 2 1024 ≤ |x| := by
      rw [F64.ratPow_eq]
      push_cast
      exact not_le.mpr hbig
    rw [if_neg hno]
    congr 1
    by_cases hneg : x < 0
    · rw [if_pos hneg, abs_of_neg hneg, neg_neg]
    · rw [if_neg hneg, abs_of_nonneg (not_lt.mp hneg)]

/-! ## Facts used by several rules -/

/-- Two receipts whose rule contributions differ by `k` have points that differ by
`k`, in the arithmetic of `int`. -/
theorem calculatePoints_eq_addInt (pf : Platform) (r r₀ : Receipt) (k : Int)
    (h : pointsSum pf r = pointsSum pf r₀ + k) :
    calculatePoints pf r = addInt (calculatePoints pf r₀) k := by
  rw [calculatePoints_eq, calculatePoints_eq, addInt_wrapInt, h]

theorem calculatePoints_wrapped (pf : Platform) (r : Receipt) :
    wrapInt (calculatePoints pf r) = calculatePoints pf r := by
  rw [calculatePoints_eq, wrapInt_wrapInt]

theorem addInt_zero_calculatePoints (pf : Platform) (r : Receipt) :
    addInt (calculatePoints pf r) 0 = calculatePoints pf r := by
  unfold addInt
  rw [add_zero, calculatePoints_wrapped]

theorem ParseFloat_empty : strconv.ParseFloat "" = none := by decide

theorem ParseDate_empty : time.ParseDate "" = none := by decide

theorem ParseClock_empty : time.ParseClock "" = none := by decide

theorem retailerPoints_empty (pf : Platform) : retailerPoints pf "" = 0 := by
  simp [retailerPoints]

theorem totalPoints_empty (pf : Platform) : totalPoints pf "" = 0 := by
  simp [totalPoints, ParseFloat_empty]

theorem datePoints_empty : datePoints "" = 0 := by
  simp [datePoints, ParseDate_empty]

theorem timePoints_empty : timePoints "" = 0 := by
  simp [timePoints, ParseClock_empty]

/-- A clock time that parses has its hour below 24 and its minute below 60. -/
theorem ParseClock_range (s : String) (t : time.Time) (h : time.ParseClock s = some t) :
    t.hour < 24 ∧ t.minute < 60 := by
  unfold time.ParseClock at h
  split at h
  · next hour r _ =>
    split at h
    · exact absurd h (by simp)
    · next hh =>
      split at h
      · next min _ =>
        split at h
        · exact absurd h (by simp)
        · next hm =>
          simp only [Option.some.injEq] at h
          subst h
          exact ⟨by simpa using hh, by simpa using hm⟩
      · exact absurd h (by simp)
  · exact absurd h (by simp)

theorem time_isDigit_eq (c : Char) : time.isDigit c = c.isDigit := by
  unfold time.isDigit Char.isDigit
  have h1 : decide ('0' ≤ c) = decide (c.val ≥ 48) := by
    apply decide_eq_decide.mpr
    exact Iff.rfl
  have h2 : decide (c ≤ '9') = decide (c.val ≤ 57) := by
    apply decide_eq_decide.mpr
    exact Iff.rfl
  rw [h1, h2]

theorem daysIn_eq_spec (month year : Nat) (h1 : 1 ≤ month) (h2 : month ≤ 12) :
    time.daysIn month year = specDaysInMonth year month := by
  have hleap : time.isLeap year = decide ((year % 4 = 0 ∧ year % 100 ≠ 0) ∨ year % 400 = 0) := by
    unfold time.isLeap
    by_cases h4 : year % 4 = 0 <;> by_cases h100 : year % 100 = 0 <;>
      by_cases h400 : year % 400 = 0 <;> simp [h4, h100, h400] <;> omega
  unfold time.daysIn specDaysInMonth
  rw [hleap]
  interval_cases month <;> simp

/-- What `getnum(s, true)` accepts: two digits. -/
theorem getnum_fixed_eq_some (l rest : List Char) (n : Nat) :
    time.getnum l true = some (n, rest) ↔
      ∃ a b : Char, l = a :: b :: rest ∧ time.isDigit a = true ∧ time.isDigit b = true ∧
        n = time.digit a * 10 + time.digit b := by
  constructor
  · intro h
    unfold time.getnum at h
    split at h
    · exact absurd h (by simp)
    · split at h <;> simp at h
    · next a b r =>
      by_cases ha : time.isDigit a = true
      · by_cases hb : time.isDigit b = true
        · simp only [ha, hb, Bool.not_true, Bool.false_eq_true, if_false, Option.some.injEq,
            Prod.mk.injEq] at h
          exact ⟨a, b, by rw [h.2], ha, hb, h.1.symm⟩
        · simp [ha, hb] at h
      · simp [ha] at h
  · rintro ⟨a, b, rfl, ha, hb, rfl⟩
    simp [time.getnum, ha, hb]

/-- What `time.Parse("2006-01-02", s)` accepts. -/
theorem ParseDate_eq_some (s : String) (t : time.Time) :
    time.ParseDate s = some t ↔
      ∃ y1 y2 y3 y4 m1 m2 d1 d2 : Char,
        s.toList = [y1, y2, y3, y4, '-', m1, m2, '-', d1, d2] ∧
        time.isDigit y1 = true ∧ time.isDigit y2 = true ∧ time.isDigit y3 = true ∧
        time.isDigit y4 = true ∧ time.isDigit m1 = true ∧ time.isDigit m2 = true ∧
        time.isDigit d1 = true ∧ time.isDigit d2 = true ∧
        1 ≤ time.digit m1 * 10 + time.digit m2 ∧ time.digit m1 * 10 + time.digit m2 ≤ 12 ∧
        1 ≤ time.digit d1 * 10 + time.digit d2 ∧
        time.digit d1 * 10 + time.digit d2 ≤
          time.daysIn (time.digit m1 * 10 + time.digit m2)
            (time.digit y1 * 1000 + time.digit y2 * 100 + time.digit y3 * 10 + time.digit y4) ∧
        t = ⟨time.digit y1 * 1000 + time.digit y2 * 100 + time.digit y3 * 10 + time.digit y4,
          time.digit m1 * 10 + time.digit m2, time.digit d1 * 10 + time.digit d2, 0, 0⟩ := by
  constructor
  · intro h
    unfold time.ParseDate at h
    split at h
    · next y1 y2 y3 y4 r hl =>
      split at h
      · exact absurd h (by simp)
      · next hy =>
        simp only [Bool.not_eq_true, Bool.not_eq_false', Bool.and_eq_true] at hy
        split at h
        · next month r2 hm =>
          obtain ⟨m1, m2, rfl, hm1, hm2, rfl⟩ := (getnum_fixed_eq_some _ _ _).mp hm
          split at h
          · exact absurd h (by simp)
          · next hrange =>
            split at h
            · next day hd =>
              obtain ⟨d1, d2, rfl, hd1, hd2, rfl⟩ := (getnum_fixed_eq_some _ _ _).mp hd
              simp only [] at h
              split at h
              · exact absurd h (by simp)
              · next hday =>
                simp only [Option.some.injEq] at h
                refine ⟨y1, y2, y3, y4, m1, m2, d1, d2, hl, hy.1.1.1, hy.1.1.2, hy.1.2, hy.2,
                  hm1, hm2, hd1, hd2, ?_, ?_, ?_, ?_, h.symm⟩ <;> omega
            · exact absurd h (by simp)
        · exact absurd h (by simp)
    · exact absurd h (by simp)
  · rintro ⟨y1, y2, y3, y4, m1, m2, d1, d2, hl, h1, h2, h3, h4, h5, h6, h7, h8, hm1, hm2, hd1,
      hd2, rfl⟩
    unfold time.ParseDate
    rw [hl]
    have g1 : time.getnum [m1, m2, '-', d1, d2] true =
        some (time.digit m1 * 10 + time.digit m2, ['-', d1, d2]) :=
      (getnum_fixed_eq_some _ _ _).mpr ⟨m1, m2, rfl, h5, h6, rfl⟩
    have g2 : time.getnum [d1, d2] true = some (time.digit d1 * 10 + time.digit d2, []) :=
      (getnum_fixed_eq_some _ _ _).mpr ⟨d1, d2, rfl, h7, h8, rfl⟩
    simp only [h1, h2, h3, h4, g1, g2]
    simp
    omega

theorem digit_eq (c : Char) : time.digit c = c.toNat - 48 := rfl

theorem datePoints_eq_spec (s : String) :
    datePoints s = if specOddCalendarDay s then 6 else 0 := by
  unfold datePoints
  cases hp : time.ParseDate s with
  | some t =>
    obtain ⟨y1, y2, y3, y4, m1, m2, d1, d2, hl, h1, h2, h3, h4, h5, h6, h7, h8, hm1, hm2, hd1,
      hd2, rfl⟩ := (ParseDate_eq_some s t).mp hp
    rw [time_isDigit_eq] at h1 h2 h3 h4 h5 h6 h7 h8
    rw [daysIn_eq_spec _ _ hm1 hm2] at hd2
    simp only [digit_eq] at hm1 hm2 hd1 hd2 ⊢
    unfold specOddCalendarDay
    rw [hl]
    simp only [time.Time.Day, h1, h2, h3, h4, h5, h6, h7, h8, hm1, hm2, hd1, hd2, beq_self_eq_true,
      decide_True, Bool.and_self, Bool.true_and, ne_eq]
    by_cases hodd : ((d1.toNat - 48) * 10 + (d2.toNat - 48)) % 2 = 1
    · simp [hodd]
    · have : ((d1.toNat - 48) * 10 + (d2.toNat - 48)) % 2 = 0 := by omega
      simp [this]
  | none =>
    by_cases hs : specOddCalendarDay s = true
    · exfalso
      unfold specOddCalendarDay at hs
      split at hs
      · next y1 y2 y3 y4 s1 m1 m2 s2 d1 d2 hl =>
        simp only [Bool.and_eq_true, beq_iff_eq, decide_eq_true_eq] at hs
        obtain ⟨⟨⟨⟨⟨⟨⟨⟨⟨⟨⟨⟨⟨⟨h1, h2⟩, h3⟩, h4⟩, rfl⟩, h5⟩, h6⟩, rfl⟩, h7⟩, h8⟩, hm1⟩, hm2⟩, hd1⟩, hd2⟩,
          -⟩ := hs
        rw [← time_isDigit_eq] at h1 h2 h3 h4 h5 h6 h7 h8
        rw [← daysIn_eq_spec _ _ hm1 hm2] at hd2
        have := (ParseDate_eq_some s _).mpr
          ⟨y1, y2, y3, y4, m1, m2, d1, d2, hl, h1, h2, h3, h4, h5, h6, h7, h8, hm1, hm2, hd1,
            hd2, rfl⟩
        rw [hp] at this
        exact absurd this (by simp)
      · exact absurd hs (by simp)
    · simp [hs]

/-- The item prices blanked: the same items, each with the unparseable price `""`. -/
theorem itemPoints_blank (pf : Platform) (item : Item) :
    itemPoints pf { item with Price := "" } = 0 := by
  simp [itemPoints, ParseFloat_empty]

theorem sum_itemPoints_blank (pf : Platform) (items : List Item) :
    ((items.map (fun it => ({ it with Price := "" } : Item))).map (itemPoints pf)).sum = 0 := by
  induction items with
  | nil => rfl
  | cons it rest ih =>
    simp only [List.map_cons, List.sum_cons, itemPoints_blank, zero_add]
    exact ih

theorem sum_itemPoints_unparseable (pf : Platform) (items : List Item)
    (h : ∀ it ∈ items, strconv.ParseFloat it.Price = none) :
    (items.map (itemPoints pf)).sum = 0 := by
  induction items with
  | nil => rfl
  | cons it rest ih =>
    have h1 : itemPoints pf it = 0 := by
      simp [itemPoints, h it (List.mem_cons_self _ _)]
    simp only [List.map_cons, List.sum_cons, h1, zero_add]
    exact ih (fun x hx => h x (List.mem_cons_of_mem _ hx))

/-! ### The rules on the total -/

theorem totalPoints_of_parse (pf : Platform) (total : String) (f : F64)
    (hp : strconv.ParseFloat total = some f) :
    totalPoints pf total =
      (if F64.eq (F64.ofInt (F64.toInt pf f)) f then 50 else 0) +
      (if Int.tmod (F64.toInt pf (F64.mul f (F64.ofRat 100))) 25 = 0 then 25 else 0) := by
  unfold totalPoints
  rw [hp]

theorem toInt_of_truncToInt (pf : Platform) (f : F64) (k : Int)
    (h : F64.truncToInt f = some k) : F64.toInt pf f = k := by
  unfold F64.toInt
  rw [h]

theorem toInt_fin_of_mem_range (pf : Platform) (g : ℚ) (hlo : -2 ^ 63 ≤ F64.trunc g)
    (hhi : F64.trunc g < 2 ^ 63) : F64.toInt pf (F64.fin g) = F64.trunc g := by
  apply toInt_of_truncToInt
  show (if -2 ^ 63 ≤ F64.trunc g ∧ F64.trunc g < 2 ^ 63 then some (F64.trunc g) else none) = _
  rw [if_pos ⟨hlo, hhi⟩]

/-- The points of a receipt against those of the receipt with the unparseable
total `""`. -/
theorem calculatePoints_total (pf : Platform) (r : Receipt) :
    calculatePoints pf r =
      addInt (calculatePoints pf { r with Total := "" }) (totalPoints pf r.Total) := by
  apply calculatePoints_eq_addInt
  simp only [pointsSum, totalPoints_empty]
  ring

theorem tmod_eq_zero_iff_emod (x : Int) : Int.tmod x 25 = 0 ↔ x % 25 = 0 := by
  rw [← Int.dvd_iff_tmod_eq_zero, Int.dvd_iff_emod_eq_zero]

theorem round_eq_trunc_of_close (g : ℚ) (h : |g - (F64.trunc g : ℚ)| < 1 / 2) :
    round g = F64.trunc g := by
  rw [round_eq, Int.floor_eq_iff]
  have := abs_lt.mp h
  constructor <;> linarith [this.1, this.2]

/-! ### Sign and range of the points of an item -/

theorem toInt_Ceil_fin (pf : Platform) (x : ℚ) (h₁ : -2 ^ 63 ≤ ⌈x⌉) (h₂ : ⌈x⌉ < 2 ^ 63) :
    F64.toInt pf (math.Ceil (F64.fin x)) = ⌈x⌉ := by
  have ht : F64.trunc ((⌈x⌉ : Int) : ℚ) = ⌈x⌉ := by
    unfold F64.trunc
    split <;> simp
  show F64.toInt pf (F64.fin ((⌈x⌉ : Int) : ℚ)) = ⌈x⌉
  rw [toInt_fin_of_mem_range pf _ (by rw [ht]; exact h₁) (by rw [ht]; exact h₂), ht]

theorem itemPoints_of_representable (pf : Platform) (item : Item) (p : F64) (k : Int)
    (hlen : len (strings.TrimSpace item.ShortDescription) % 3 = 0)
    (hp : strconv.ParseFloat item.Price = some p)
    (hk : F64.truncToInt (math.Ceil (F64.mul p (F64.ofRat (2 / 10)))) = some k) :
    itemPoints pf item = k := by
  unfold itemPoints
  rw [if_pos hlen, hp]
  exact toInt_of_truncToInt pf _ k hk

theorem ofRat_two_tenths :
    F64.ofRat (2 / 10) = F64.fin (3602879701896397 / 18014398509481984) := by decide!

/-- An item whose price is a finite number between 0 and `2^63` earns a
non-negative number of points. -/
theorem itemPoints_nonneg (pf : Platform) (item : Item)
    (h : len (strings.TrimSpace item.ShortDescription) % 3 = 0 →
      ∀ p, strconv.ParseFloat item.Price = some p → ∃ q, p = F64.fin q ∧ 0 ≤ q ∧ q ≤ 2 ^ 63) :
    0 ≤ itemPoints pf item := by
  unfold itemPoints
  split
  · next hlen =>
    cases hp : strconv.ParseFloat item.Price with
    | none => simp
    | some p =>
      obtain ⟨q, rfl, hq0, hq1⟩ := h hlen p hp
      simp only []
      rw [ofRat_two_tenths]
      show 0 ≤ F64.toInt pf (math.Ceil (F64.ofRat (q * (3602879701896397 / 18014398509481984))))
      have hprod0 : 0 ≤ q * (3602879701896397 / 18014398509481984) :=
        mul_nonneg hq0 (by norm_num)
      have hprod1 : |q * (3602879701896397 / 18014398509481984)| ≤ 2 ^ 62 := by
        rw [abs_of_nonneg hprod0]
        have : q * (3602879701896397 / 18014398509481984) ≤
            2 ^ 63 * (3602879701896397 / 18014398509481984) :=
          mul_le_mul_of_nonneg_right hq1 (by norm_num)
        have h2 : (2 : ℚ) ^ 63 * (3602879701896397 / 18014398509481984) ≤ 2 ^ 62 := by
          norm_num
        linarith
      obtain ⟨v, hv, hvabs, hv0, -⟩ := F64.ofRat_abs_le _ 62 (by norm_num) hprod1
      rw [hv]
      have hv0' : 0 ≤ v := hv0 hprod0
      have hvle : v ≤ 2 ^ 62 := le_trans (le_abs_self v) hvabs
      have hc0 : 0 ≤ ⌈v⌉ := Int.ceil_nonneg hv0'
      have hc1 : ⌈v⌉ ≤ 2 ^ 62 := by
        apply Int.ceil_le.mpr
        exact_mod_cast hvle
      rw [toInt_Ceil_fin pf v (by linarith) (by
        have : (2 : Int) ^ 62 < 2 ^ 63 := by norm_num
        linarith)]
      exact hc0
  · simp

theorem sum_itemPoints_nonneg (pf : Platform) (items : List Item)
    (h : ∀ item ∈ items, len (strings.TrimSpace item.ShortDescription) % 3 = 0 →
      ∀ p, strconv.ParseFloat item.Price = some p → ∃ q, p = F64.fin q ∧ 0 ≤ q ∧ q ≤ 2 ^ 63) :
    0 ≤ (items.map (itemPoints pf)).sum := by
  induction items with
  | nil => simp
  | cons it rest ih =>
    simp only [List.map_cons, List.sum_cons]
    have h1 := itemPoints_nonneg pf it (h it (List.mem_cons_self _ _))
    have h2 := ih (fun x hx => h x (List.mem_cons_of_mem _ hx))
    linarith

theorem totalPoints_nonneg (pf : Platform) (total : String) : 0 ≤ totalPoints pf total := by
  unfold totalPoints
  cases strconv.ParseFloat total with
  | none => simp
  | some f =>
    simp only []
    split <;> split <;> norm_num

theorem datePoints_nonneg (s : String) : 0 ≤ datePoints s := by
  unfold datePoints
  cases time.ParseDate s with
  | none => simp
  | some d =>
    simp only []
    split <;> norm_num

theorem timePoints_nonneg (s : String) : 0 ≤ timePoints s := by
  unfold timePoints
  cases time.ParseClock s with
  | none => simp
  | some d =>
    simp only []
    split <;> norm_num

/-! ### The round-dollar test inside the range of `int` -/

/-- Rounding yields a float64 value. -/
theorem F64.representable_of_ofRat (x q : ℚ) (h : F64.ofRat x = F64.fin q) :
    F64.Representable q := by
  by_cases h0 : x = 0
  · subst h0
    simp only [F64.ofRat, if_true, F64.fin.injEq] at h
    subst h
    exact ⟨0, 0, by norm_num, by norm_num, by simp, by
      rw [abs_zero]
      exact zpow_pos (by norm_num) _⟩
  · have two_pos : (0 : ℚ) < 2 := by norm_num
    have hpos : 0 < |x| := abs_pos.mpr h0
    obtain ⟨hlo, hhi⟩ := F64.ilog2_spec |x| hpos
    unfold F64.ofRat at h
    rw [if_neg h0] at h
    simp only [] at h
    split at h
    · exact absurd h (by simp)
    · next hno =>
      rw [F64.ratPow_eq] at hno
      simp only [F64.fin.injEq] at h
      unfold F64.roundMagnitude at h hno
      simp only [F64.ratPow_eq, Nat.cast_ofNat] at h hno
      set p : Int := max (F64.ilog2 |x| - 52) (-1074) with hp
      have hppos : (0 : ℚ) < 2 ^ p := zpow_pos two_pos _
      have hdiv0 : 0 ≤ |x| / 2 ^ p := div_nonneg hpos.le hppos.le
      have hdiv : |x| / 2 ^ p ≤ ((2 ^ 53 : Int) : ℚ) := by
        rw [div_le_iff₀ hppos]
        have h1 : (2 : ℚ) ^ (F64.ilog2 |x| + 1) ≤ 2 ^ (53 + p) :=
          zpow_le_zpow_right₀ (by norm_num) (by rw [hp]; omega)
        have h2 : (((2 ^ 53 : Int)) : ℚ) * 2 ^ p = (2 : ℚ) ^ (53 + p) := by
          rw [zpow_add₀ two_pos.ne']
          norm_num
        rw [h2]
        linarith
      have hM0 := F64.roundHalfEven_nonneg _ hdiv0
      have hM1 := F64.roundHalfEven_le _ _ hdiv
      set M : Int := F64.roundHalfEven (|x| / 2 ^ p) with hMdef
      have hv0 : (0 : ℚ) ≤ (M : ℚ) * 2 ^ p := mul_nonneg (by exact_mod_cast hM0) hppos.le
      have hbig : (M : ℚ) * 2 ^ p < 2 ^ (1024 : Int) := by
        have := not_le.mp hno
        simpa using this
      by_cases hneg : x < 0
      · rw [if_pos hneg] at h
        refine ⟨-M, p, ?_, by rw [hp]; omega, ?_, ?_⟩
        · rw [abs_neg, abs_of_nonneg hM0]; exact hM1
        · rw [← h]; push_cast; ring
        · rw [← h, abs_neg, abs_of_nonneg hv0]; exact hbig
      · rw [if_neg hneg] at h
        refine ⟨M, p, ?_, by rw [hp]; omega, ?_, ?_⟩
        · rw [abs_of_nonneg hM0]; exact hM1
        · rw [← h]
        · rw [← h, abs_of_nonneg hv0]; exact hbig

/-- The nearest float64 of an integer is an integer. -/
theorem F64.ofRat_intCast_integral (T : Int) (q : ℚ) (h : F64.ofRat (T : ℚ) = F64.fin q) :
    ∃ n : Int, q = (n : ℚ) := by
  by_cases h0 : (T : ℚ) = 0
  · rw [h0] at h
    simp only [F64.ofRat, if_true, F64.fin.injEq] at h
    exact ⟨0, by rw [← h]; simp⟩
  · have two_pos : (0 : ℚ) < 2 := by norm_num
    unfold F64.ofRat at h
    rw [if_neg h0] at h
    simp only [] at h
    split at h
    · exact absurd h (by simp)
    · simp only [F64.fin.injEq] at h
      have hmag : ∃ n : Int, F64.roundMagnitude |(T : ℚ)| = (n : ℚ) := by
        unfold F64.roundMagnitude
        simp only [F64.ratPow_eq, Nat.cast_ofNat]
        set p : Int := max (F64.ilog2 |(T : ℚ)| - 52) (-1074) with hp
        by_cases hp0 : 0 ≤ p
        · obtain ⟨k, hk⟩ := Int.eq_ofNat_of_zero_le hp0
          refine ⟨F64.roundHalfEven (|(T : ℚ)| / 2 ^ p) * 2 ^ k, ?_⟩
          rw [hk]
          push_cast
          rw [zpow_natCast]
        · obtain ⟨k, hk⟩ : ∃ k : Nat, p = -(k : Int) := ⟨(-p).toNat, by omega⟩
          have hq : |(T : ℚ)| / 2 ^ p = ((|T| * 2 ^ k : Int) : ℚ) := by
            rw [hk, zpow_neg, zpow_natCast, div_inv_eq_mul]
            push_cast
            rfl
          refine ⟨|T|, ?_⟩
          rw [hq, F64.roundHalfEven_intCast, hk, zpow_neg, zpow_natCast]
          push_cast
          field_simp
      obtain ⟨n, hn⟩ := hmag
      rw [hn] at h
      by_cases hneg : (T : ℚ) < 0
      · rw [if_pos hneg] at h
        exact ⟨-n, by rw [← h]; push_cast; rfl⟩
      · rw [if_neg hneg] at h
        exact ⟨n, h.symm⟩

theorem F64.trunc_intCast (n : Int) : F64.trunc (n : ℚ) = n := by
  unfold F64.trunc
  split <;> simp

/-- Inside the range of `int`, the test `float64(int(x)) == x` of the round-dollar
rule holds exactly for the float64 values that are integers: those equal to their
own truncation. -/
theorem roundDollar_iff_integral (pf : Platform) (q : ℚ) (hrep : F64.Representable q)
    (hlo : -2 ^ 63 ≤ F64.trunc q) (hhi : F64.trunc q < 2 ^ 63) :
    F64.eq (F64.ofInt (F64.toInt pf (F64.fin q))) (F64.fin q) = true ↔
      ((F64.trunc q : Int) : ℚ) = q := by
  rw [toInt_fin_of_mem_range pf q hlo hhi]
  constructor
  · intro h
    have habs : |((F64.trunc q : Int) : ℚ)| ≤ 2 ^ 63 := by
      rw [abs_le]
      constructor
      · have : ((-2 ^ 63 : Int) : ℚ) ≤ ((F64.trunc q : Int) : ℚ) := by exact_mod_cast hlo
        simpa using this
      · have : ((F64.trunc q : Int) : ℚ) ≤ ((2 ^ 63 : Int) : ℚ) := by exact_mod_cast hhi.le
        simpa using this
    obtain ⟨v, hv, -, -, -⟩ := F64.ofRat_abs_le _ 63 (by norm_num) habs
    obtain ⟨n, hn⟩ := F64.ofRat_intCast_integral _ _ hv
    unfold F64.ofInt at h
    rw [hv] at h
    have hvq : v = q := by simpa [F64.eq] using h
    rw [← hvq, hn, F64.trunc_intCast]
  · intro h
    unfold F64.ofInt
    rw [h, F64.ofRat_of_representable q hrep]
    simp [F64.eq]

/-- A finite value that `strconv.ParseFloat` returns is a float64 value. -/
theorem ParseFloat_representable (s : String) (q : ℚ)
    (h : strconv.ParseFloat s = some (F64.fin q)) : F64.Representable q := by
  unfold strconv.ParseFloat at h
  split at h
  · next f n hs =>
    split at h
    · simp only [Option.some.injEq] at h
      subst h
      exfalso
      unfold strconv.special at hs
      have hinf : ∀ (neg : Bool) (k : Nat) (l : List Char),
          strconv.specialInf neg k l ≠ some (F64.fin q, n) := by
        intro neg k l hc
        unfold strconv.specialInf at hc
        simp only [] at hc
        split at hc <;> simp at hc
      split at hs
      · exact absurd hs (by simp)
      · exact hinf _ _ _ hs
      · exact hinf _ _ _ hs
      · split at hs
        · exact hinf _ _ _ hs
        · split at hs
          · split at hs <;> simp at hs
          · exact absurd hs (by simp)
    · exact absurd h (by simp)
  · split at h
    · next v hr =>
      split at h
      · exact absurd h (by simp)
      · next f hf hne =>
        simp only [Option.some.injEq] at h
        exact F64.representable_of_ofRat v q h
    · exact absurd h (by simp)

/-- The round-dollar rule inside the range of `int`: a receipt whose total parses to
a finite value with a truncation that fits an `int` earns the 50 points exactly
when the value equals its own truncation. -/
theorem calculatePoints_roundDollar_in_range (pf : Platform) (r : Receipt) (q : ℚ)
    (hparse : strconv.ParseFloat r.Total = some (F64.fin q))
    (hlo : -2 ^ 63 ≤ F64.trunc q) (hhi : F64.trunc q < 2 ^ 63) :
    calculatePoints pf r =
      addInt (calculatePoints pf { r with Total := "" })
        ((if ((F64.trunc q : Int) : ℚ) = q then 50 else 0) +
          (if Int.tmod (F64.toInt pf (F64.mul (F64.fin q) (F64.ofRat 100))) 25 = 0 then 25
            else 0)) := by
  rw [calculatePoints_total pf r, totalPoints_of_parse pf r.Total _ hparse]
  have h := roundDollar_iff_integral pf q (ParseFloat_representable _ _ hparse) hlo hhi
  by_cases hq : ((F64.trunc q : Int) : ℚ) = q
  · rw [if_pos hq, if_pos (h.mpr hq)]
  · rw [if_neg hq, if_neg (fun hc => hq (h.mp hc))]

/-! ### Totals beyond the range of `int` -/

/-- Whatever `int` a conversion yields, converting it back gives a float64 of
magnitude at most `2^63`. -/
theorem ofInt_toInt_abs_le (pf : Platform) (f : F64) :
    ∃ v, F64.ofInt (F64.toInt pf f) = F64.fin v ∧ |v| ≤ 2 ^ 63 := by
  have hrange : -2 ^ 63 ≤ F64.toInt pf f ∧ F64.toInt pf f < 2 ^ 63 := by
    unfold F64.toInt
    cases h : F64.truncToInt f with
    | none => exact ⟨wrapInt_lower _, wrapInt_upper _⟩
    | some k =>
      cases f with
      | nan => simp [F64.truncToInt] at h
      | inf s => simp [F64.truncToInt] at h
      | fin q =>
        simp only [F64.truncToInt] at h
        split at h
        · next hr =>
          simp only [Option.some.injEq] at h
          subst h
          exact hr
        · exact absurd h (by simp)
  have habs : |((F64.toInt pf f : Int) : ℚ)| ≤ 2 ^ 63 := by
    rw [abs_le]
    constructor
    · have : ((-2 ^ 63 : Int) : ℚ) ≤ ((F64.toInt pf f : Int) : ℚ) := by exact_mod_cast hrange.1
      simpa using this
    · have : ((F64.toInt pf f : Int) : ℚ) ≤ ((2 ^ 63 : Int) : ℚ) := by exact_mod_cast hrange.2.le
      simpa using this
  obtain ⟨v, hv, hvabs, -, -⟩ := F64.ofRat_abs_le _ 63 (by norm_num) habs
  exact ⟨v, hv, hvabs⟩

/-! ### Receipts that pass the validation of `processReceipt` -/

theorem retailerPoints_nonneg (pf : Platform) (s : String) : 0 ≤ retailerPoints pf s :=
  Int.natCast_nonneg _

theorem retailerPoints_le_length (pf : Platform) (s : String) :
    retailerPoints pf s ≤ (s.toList.length : Int) := by
  unfold retailerPoints
  exact_mod_cast List.countP_le_length _

theorem itemPoints_of_length (pf : Platform) (item : Item)
    (h : ¬ len (strings.TrimSpace item.ShortDescription) % 3 = 0) : itemPoints pf item = 0 := by
  unfold itemPoints
  rw [if_neg h]

/-- The points of the receipt of the retailer `Target`, bought on 2022-01-02 at
13:01, with the single item `Pepsi` at 1.25: the letters and digits of the retailer,
at most 6, and the points of the total. -/
theorem pointsSum_target (pf : Platform) (total : String) :
    pointsSum pf ⟨"Target", "2022-01-02", "13:01", [⟨"Pepsi", "1.25"⟩], total⟩ =
      retailerPoints pf "Target" + totalPoints pf total := by
  have h1 : datePoints "2022-01-02" = 0 := by decide
  have h2 : timePoints "13:01" = 0 := by decide
  have h3 : itemPoints pf ⟨"Pepsi", "1.25"⟩ = 0 := itemPoints_of_length pf _ (by decide)
  simp only [pointsSum, h1, h2, h3, List.map_cons, List.map_nil, List.sum_cons, List.sum_nil,
    List.length_cons, List.length_nil]
  norm_num

theorem calculatePoints_target (pf : Platform) (total : String)
    (h₁ : 0 ≤ totalPoints pf total) (h₂ : totalPoints pf total ≤ 75) :
    calculatePoints pf ⟨"Target", "2022-01-02", "13:01", [⟨"Pepsi", "1.25"⟩], total⟩ =
      retailerPoints pf "Target" + totalPoints pf total := by
  rw [calculatePoints_eq, pointsSum_target]
  have h3 := retailerPoints_nonneg pf "Target"
  have h4 : retailerPoints pf "Target" ≤ 6 := retailerPoints_le_length pf "Target"
  apply wrapInt_of_mem_range
  · have : -(2 : Int) ^ 63 ≤ 0 := by norm_num
    linarith
  · have : (81 : Int) < 2 ^ 63 := by norm_num
    linarith

/-! ### The handlers -/

/-- The lookup handler recovers the identifier from the path built for it. -/
theorem trim_pointsPath (id : String) :
    strings.TrimSuffix (strings.TrimPrefix (pointsPath id) "/receipts/") "/points" = id := by
  have h1 : (pointsPath id).toList = "/receipts/".toList ++ (id.toList ++ "/points".toList) := by
    simp [pointsPath, String.toList, List.append_assoc]
  have h2 : strings.TrimPrefix (pointsPath id) "/receipts/" =
      String.mk (id.toList ++ "/points".toList) := by
    unfold strings.TrimPrefix
    rw [h1]
    have hp : ("/receipts/".toList).isPrefixOf
        ("/receipts/".toList ++ (id.toList ++ "/points".toList)) = true := by
      rw [List.isPrefixOf_iff_prefix]
      exact List.prefix_append _ _
    rw [if_pos hp, List.drop_left]
  rw [h2]
  unfold strings.TrimSuffix
  have hs : ("/points".toList).isSuffixOf (String.mk (id.toList ++ "/points".toList)).toList =
      true := by
    show ("/points".toList).isSuffixOf (id.toList ++ "/points".toList) = true
    rw [List.isSuffixOf_iff_suffix]
    exact List.suffix_append _ _
  rw [if_pos hs]
  show String.mk ((id.toList ++ "/points".toList).take
    ((id.toList ++ "/points".toList).length - "/points".toList.length)) = id
  rw [List.length_append, Nat.add_sub_cancel, List.take_left]
  rfl

/-- The lookup handler on the path built for an identifier. -/
theorem getReceiptPoints_pointsPath (receipts : Store) (id : String) :
    getReceiptPoints receipts (pointsPath id) =
      match receipts id with
      | none => Response.error 404 "Not Found"
      | some receiptData => Response.points 200 receiptData.Points := by
  unfold getReceiptPoints
  simp only [trim_pointsPath]
  rfl

/-- The submission handler on a receipt that passes its validation. -/
theorem processReceipt_valid (pf : Platform) (receipts : Store) (uuid : String) (r : Receipt)
    (h₁ : r.Retailer ≠ "") (h₂ : r.Total ≠ "") (h₃ : r.Items ≠ []) :
    processReceipt pf receipts uuid (some r) =
      (Response.id 200 uuid, receipts.store uuid ⟨uuid, calculatePoints pf r⟩) := by
  have h : ¬ (r.Retailer = "" ∨ r.Total = "" ∨ r.Items.length = 0) := by
    rintro (h | h | h)
    · exact h₁ h
    · exact h₂ h
    · exact h₃ (List.length_eq_zero.mp h)
  unfold processReceipt
  simp only [h, if_false]

theorem store_load_same (receipts : Store) (id : String) (rData : ReceiptData) :
    (receipts.store id rData) id = some rData := by
  simp [Store.store]

theorem store_load_other (receipts : Store) (id k : String) (rData : ReceiptData) (h : k ≠ id) :
    (receipts.store id rData) k = receipts k := by
  simp [Store.store, h]

/-- The store after a call of the submission handler answered with an id holds one
more record, under that id; any other call leaves the store as it was. -/
theorem processReceipt_store (pf : Platform) (receipts : Store) (uuid : String)
    (body : Option Receipt) :
    (∃ rData, processReceipt pf receipts uuid body =
        (Response.id 200 uuid, receipts.store uuid rData)) ∨
    (∃ msg, processReceipt pf receipts uuid body = (Response.error 400 msg, receipts)) := by
  unfold processReceipt
  cases body with
  | none => exact Or.inr ⟨_, rfl⟩
  | some r =>
    by_cases h : r.Retailer = "" ∨ r.Total = "" ∨ r.Items.length = 0
    · simp only [h, if_true]
      exact Or.inr ⟨_, rfl⟩
    · simp only [h, if_false]
      exact Or.inl ⟨_, rfl⟩

/-- Every key of the store after a sequence of submissions was a key before it or
is one of the identifiers the submissions returned. -/
theorem submitAll_keys (pf : Platform) (subs : List Submission) :
    ∀ (receipts : Store) (k : String), receipts k = none →
      k ∉ returnedIds pf receipts subs → submitAll pf receipts subs k = none := by
  induction subs with
  | nil => intro receipts k h _; exact h
  | cons s rest ih =>
    intro receipts k h hk
    rcases processReceipt_store pf receipts s.1 s.2 with ⟨rData, hp⟩ | ⟨msg, hp⟩
    · unfold returnedIds at hk
      unfold submitAll
      rw [hp] at hk ⊢
      simp only [List.mem_cons, not_or] at hk
      exact ih _ k ((store_load_other _ _ _ _ hk.1).trans h) hk.2
    · unfold returnedIds at hk
      unfold submitAll
      rw [hp] at hk ⊢
      exact ih _ k h hk

/-! ### The total and the description, once more -/

/-- The total of a receipt enters its points through the two rules of the total
only: two receipts that differ in the total alone, whose totals earn the same from
the round-dollar and the quarter rule, earn the same points. -/
theorem calculatePoints_congr_total (pf : Platform) (r : Receipt) (t₁ t₂ : String)
    (h : totalPoints pf t₁ = totalPoints pf t₂) :
    calculatePoints pf { r with Total := t₁ } = calculatePoints pf { r with Total := t₂ } := by
  rw [calculatePoints_total pf { r with Total := t₁ },
    calculatePoints_total pf { r with Total := t₂ }]
  show addInt (calculatePoints pf { r with Total := "" }) (totalPoints pf t₁) =
    addInt (calculatePoints pf { r with Total := "" }) (totalPoints pf t₂)
  rw [h]

/-- Go `len` counts the bytes of the UTF-8 encoding: the sum over the characters of
the bytes that each takes. -/
theorem len_eq_sum_utf8Size (s : String) : len s = (s.toList.map Char.utf8Size).sum := by
  have h : ∀ l : List Char, String.utf8ByteSize.go l = (l.map Char.utf8Size).sum := by
    intro l
    induction l with
    | nil => rfl
    | cons c cs ih =>
      simp only [String.utf8ByteSize.go, ih, List.map_cons, List.sum_cons]
      omega
  cases s with
  | mk l => exact h l

/-- A string of ASCII characters has as many bytes as characters. -/
theorem len_eq_length_of_ascii (s : String) (h : ∀ c ∈ s.toList, c.toNat < 128) :
    len s = s.length := by
  rw [len_eq_sum_utf8Size]
  show (s.toList.map Char.utf8Size).sum = s.toList.length
  generalize s.toList = l at h
  induction l with
  | nil => rfl
  | cons c cs ih =>
    have hc : c.utf8Size = 1 := by
      have h1 : c.toNat < 128 := h c (List.mem_cons_self _ _)
      have h2 : c.val ≤ 127 := by
        rw [UInt32.le_def]
        show c.val.toNat ≤ 127
        have : c.toNat = c.val.toNat := rfl
        omega
      unfold Char.utf8Size
      have h3 : c.val ≤ UInt32.ofNatCore 127 (by decide) := h2
      exact if_pos h3
    rw [List.map_cons, List.sum_cons, hc, ih (fun d hd => h d (List.mem_cons_of_mem _ hd)),
      List.length_cons]
    omega

/-- When the float64 product of the total `k/4` with 100, the integer `25 * k`, is
exact (of magnitude at most `2^53`), the test of the quarter rule succeeds. -/
theorem quarter_of_exact_product (pf : Platform) (k : Int) (hk : |25 * k| ≤ 2 ^ 53) :
    Int.tmod (F64.toInt pf (F64.mul (F64.fin ((k : ℚ) / 4)) (F64.ofRat 100))) 25 = 0 := by
  have h100 : F64.ofRat 100 = F64.fin 100 := by decide!
  have hprod : (k : ℚ) / 4 * 100 = ((25 * k : Int) : ℚ) := by
    push_cast
    ring
  have hrep : F64.Representable (((25 * k : Int) : ℚ)) := by
    refine ⟨25 * k, 0, hk, by norm_num, by simp, ?_⟩
    have h1 : |(((25 * k : Int)) : ℚ)| ≤ 2 ^ 53 := by
      rw [← Int.cast_abs]
      exact_mod_cast hk
    have h2 : ((2 : ℚ) ^ 53) < 2 ^ (1024 : Int) := by
      have h3 : ((2 : ℚ) ^ (53 : Int)) < 2 ^ (1024 : Int) :=
        zpow_lt_zpow_right₀ (by norm_num) (by norm_num)
      have h4 : ((2 : ℚ) ^ (53 : Int)) = 2 ^ 53 := zpow_natCast 2 53
      rwa [h4] at h3
    exact lt_of_le_of_lt h1 h2
  have hmul : F64.mul (F64.fin ((k : ℚ) / 4)) (F64.ofRat 100) = F64.fin (((25 * k : Int)) : ℚ) := by
    rw [h100]
    show F64.ofRat ((k : ℚ) / 4 * 100) = _
    rw [hprod, F64.ofRat_of_representable _ hrep]
  have hb := abs_le.mp hk
  rw [hmul, toInt_fin_of_mem_range pf _ (by rw [F64.trunc_intCast]; linarith [hb.1])
    (by rw [F64.trunc_intCast]; linarith [hb.2]), F64.trunc_intCast]
  exact Int.mul_tmod_right 25 k

/-- The points of a receipt against those of the receipt with every item price made
unparseable: the description-rule points of its items, added in the arithmetic of
`int`. -/
theorem calculatePoints_items (pf : Platform) (r : Receipt) :
    calculatePoints pf r =
      addInt
        (calculatePoints pf
          { r with Items := r.Items.map (fun it => ({ it with Price := "" } : Item)) })
        (r.Items.map (itemPoints pf)).sum := by
  apply calculatePoints_eq_addInt
  simp only [pointsSum, sum_itemPoints_blank, List.length_map]
  ring

/-- The description rule for one item, with the length of the trimmed description
written as the bytes its characters take. -/
theorem itemPoints_eq_bytes (pf : Platform) (item : Item) :
    itemPoints pf item =
      (if ((strings.TrimSpace item.ShortDescription).toList.map Char.utf8Size).sum % 3 = 0 then
        match strconv.ParseFloat item.Price with
        | some price => F64.toInt pf (math.Ceil (F64.mul price (F64.ofRat (2 / 10))))
        | none => 0
      else 0) := by
  unfold itemPoints
  rw [len_eq_sum_utf8Size]

/-- Items of the same price whose trimmed descriptions have the same length earn
the same from the description rule. -/
theorem itemPoints_congr (pf : Platform) (a b : Item) (hp : a.Price = b.Price)
    (hl : len (strings.TrimSpace a.ShortDescription) =
      len (strings.TrimSpace b.ShortDescription)) :
    itemPoints pf a = itemPoints pf b := by
  unfold itemPoints
  rw [hp, hl]

/-- Two receipts that differ in their items only, item by item of the same
description-rule points, earn the same points. -/
theorem calculatePoints_congr_items (pf : Platform) (r : Receipt) (items : List Item)
    (h : List.Forall₂ (fun a b => itemPoints pf a = itemPoints pf b) items r.Items) :
    calculatePoints pf { r with Items := items } = calculatePoints pf r := by
  rw [calculatePoints_eq, calculatePoints_eq]
  congr 1
  have h2 : ∀ l₁ l₂ : List Item,
      List.Forall₂ (fun a b => itemPoints pf a = itemPoints pf b) l₁ l₂ →
        (l₁.map (itemPoints pf)).sum = (l₂.map (itemPoints pf)).sum := by
    intro l₁ l₂ hl
    induction hl with
    | nil => rfl
    | cons hab _ ih => rw [List.map_cons, List.map_cons, List.sum_cons, List.sum_cons, hab, ih]
  have h1 : items.length = r.Items.length := h.length_eq
  have h2 := h2 items r.Items h
  show retailerPoints pf r.Retailer + totalPoints pf r.Total + 5 * ((items.length : Int) / 2) +
    (items.map (itemPoints pf)).sum + datePoints r.PurchaseDate + timePoints r.PurchaseTime = _
  rw [h1, h2]
  rfl

/-! ## The claims -/

/-- C1, as the code has it. For a receipt whose total parses to a finite float64
`t` such that the float64 product `t * 100` is `g` and the truncation of `g` fits an
`int`: when `g` is less than 1/2 away from its truncation (rounding to the nearest
integer and truncating agree), `calculatePoints` adds 25 for the total exactly when
`round(g) mod 25 == 0`; and whenever the truncation of `g` is not divisible by 25 it
adds nothing for this rule. The points are compared with those of the same receipt
with the unparseable total `""`; the other summand is the round-dollar rule. -/
theorem C1_quarter_multiple_truncated (pf : Platform) (r : Receipt) (t : F64) (g : ℚ)
    (hparse : strconv.ParseFloat r.Total = some t)
    (hmul : F64.mul t (F64.ofRat 100) = F64.fin g)
    (hlo : -2 ^ 63 ≤ F64.trunc g) (hhi : F64.trunc g < 2 ^ 63) :
    strconv.ParseFloat "" = none ∧
    (|g - (F64.trunc g : ℚ)| < 1 / 2 →
      calculatePoints pf r =
        addInt (calculatePoints pf { r with Total := "" })
          ((if F64.eq (F64.ofInt (F64.toInt pf t)) t then 50 else 0) +
            (if round g % 25 = 0 then 25 else 0))) ∧
    (F64.trunc g % 25 ≠ 0 →
      calculatePoints pf r =
        addInt (calculatePoints pf { r with Total := "" })
          ((if F64.eq (F64.ofInt (F64.toInt pf t)) t then 50 else 0) + 0)) := by
  have hq : F64.toInt pf (F64.mul t (F64.ofRat 100)) = F64.trunc g := by
    rw [hmul]
    exact toInt_fin_of_mem_range pf g hlo hhi
  have hbase := calculatePoints_total pf r
  rw [totalPoints_of_parse pf r.Total t hparse, hq] at hbase
  refine ⟨ParseFloat_empty, ?_, ?_⟩
  · intro hclose
    rw [hbase, round_eq_trunc_of_close g hclose]
    simp only [tmod_eq_zero_iff_emod]
  · intro hne
    rw [hbase]
    have : ¬ Int.tmod (F64.trunc g) 25 = 0 := by
      rw [tmod_eq_zero_iff_emod]
      exact hne
    rw [if_neg this]

/-- An instance of C1: the totals `0.25` (product 25) and `0.249` (product truncating
to 24). -/
theorem C1_quarter_multiple_truncated_witness :
    calculatePoints amd64 ⟨"Target", "2022-01-01", "13:01", [⟨"Pepsi", "1.25"⟩], "0.25"⟩ =
      addInt (calculatePoints amd64 ⟨"Target", "2022-01-01", "13:01", [⟨"Pepsi", "1.25"⟩], ""⟩)
        ((if F64.eq (F64.ofInt (F64.toInt amd64 (F64.fin (1 / 4)))) (F64.fin (1 / 4)) then 50
            else 0) +
          (if round (25 : ℚ) % 25 = 0 then 25 else 0)) ∧
    calculatePoints amd64 ⟨"Target", "2022-01-01", "13:01", [⟨"Pepsi", "1.25"⟩], "0.249"⟩ =
      addInt (calculatePoints amd64 ⟨"Target", "2022-01-01", "13:01", [⟨"Pepsi", "1.25"⟩], ""⟩)
        ((if F64.eq (F64.ofInt (F64.toInt amd64 (F64.fin (2242792614430507 / 9007199254740992))))
            (F64.fin (2242792614430507 / 9007199254740992)) then 50 else 0) + 0) :=
  ⟨(C1_quarter_multiple_truncated amd64
      ⟨"Target", "2022-01-01", "13:01", [⟨"Pepsi", "1.25"⟩], "0.25"⟩
      (F64.fin (1 / 4)) 25 (by decide!) (by decide!) (by decide!) (by decide!)).2.1 (by decide!),
    (C1_quarter_multiple_truncated amd64
      ⟨"Target", "2022-01-01", "13:01", [⟨"Pepsi", "1.25"⟩], "0.249"⟩
      (F64.fin (2242792614430507 / 9007199254740992)) (3504363460047667 / 140737488355328)
      (by decide!) (by decide!) (by decide!) (by decide!)).2.2 (by decide!)⟩

/-- C1, the claim as stated fails. Take the receipt of the retailer `Target`, bought
on 2022-01-02 at 13:01, with the single item `Pepsi` at 1.25. With the total `0.249`,
whose float64 product with 100 is 24.89999999999999857891452847979962825775146484375
and rounds to 25, a multiple of 25, it earns what it earns with the unparseable total
`-`: nothing for the total. With the total `0.259`, whose product is
25.900000000000002131628207280300557613372802734375 and rounds to 26, not a multiple
of 25, it earns 25 points more. So it does with the total `2.51`, whose product is
250.999999999999971578290569595992565155029296875 and rounds to 251. -/
theorem C1_counterexample :
    (strconv.ParseFloat "0.249" = some (F64.fin (2242792614430507 / 9007199254740992)) ∧
      F64.mul (F64.fin (2242792614430507 / 9007199254740992)) (F64.ofRat 100) =
        F64.fin (3504363460047667 / 140737488355328) ∧
      round (3504363460047667 / 140737488355328 : ℚ) = 25 ∧
      round (3504363460047667 / 140737488355328 : ℚ) % 25 = 0 ∧
      ∀ pf : Platform,
        calculatePoints pf ⟨"Target", "2022-01-02", "13:01", [⟨"Pepsi", "1.25"⟩], "0.249"⟩ =
          calculatePoints pf ⟨"Target", "2022-01-02", "13:01", [⟨"Pepsi", "1.25"⟩], "-"⟩) ∧
    (strconv.ParseFloat "0.259" = some (F64.fin (2332864606977917 / 9007199254740992)) ∧
      F64.mul (F64.fin (2332864606977917 / 9007199254740992)) (F64.ofRat 100) =
        F64.fin (7290201896805991 / 281474976710656) ∧
      round (7290201896805991 / 281474976710656 : ℚ) = 26 ∧
      round (7290201896805991 / 281474976710656 : ℚ) % 25 ≠ 0 ∧
      ∀ pf : Platform,
        calculatePoints pf ⟨"Target", "2022-01-02", "13:01", [⟨"Pepsi", "1.25"⟩], "0.259"⟩ =
          calculatePoints pf ⟨"Target", "2022-01-02", "13:01", [⟨"Pepsi", "1.25"⟩], "-"⟩ + 25) ∧
    (strconv.ParseFloat "2.51" = some (F64.fin (1413004383087493 / 562949953421312)) ∧
      F64.mul (F64.fin (1413004383087493 / 562949953421312)) (F64.ofRat 100) =
        F64.fin (8831277394296831 / 35184372088832) ∧
      round (8831277394296831 / 35184372088832 : ℚ) = 251 ∧
      round (8831277394296831 / 35184372088832 : ℚ) % 25 ≠ 0 ∧
      ∀ pf : Platform,
        calculatePoints pf ⟨"Target", "2022-01-02", "13:01", [⟨"Pepsi", "1.25"⟩], "2.51"⟩ =
          calculatePoints pf ⟨"Target", "2022-01-02", "13:01", [⟨"Pepsi", "1.25"⟩], "-"⟩ + 25) := by
  have p3 : strconv.ParseFloat "2.51" = some (F64.fin (1413004383087493 / 562949953421312)) := by
    decide!
  have m3 : F64.mul (F64.fin (1413004383087493 / 562949953421312)) (F64.ofRat 100) =
      F64.fin (8831277394296831 / 35184372088832) := by decide!
  have t3 : ∀ pf : Platform, totalPoints pf "2.51" = 25 := by
    intro pf
    rw [totalPoints_of_parse pf _ _ p3, m3,
      toInt_of_truncToInt pf _ 2 (by decide!), toInt_of_truncToInt pf _ 250 (by decide!)]
    decide!
  have p1 : strconv.ParseFloat "0.249" = some (F64.fin (2242792614430507 / 9007199254740992)) := by
    decide!
  have p2 : strconv.ParseFloat "0.259" = some (F64.fin (2332864606977917 / 9007199254740992)) := by
    decide!
  have m1 : F64.mul (F64.fin (2242792614430507 / 9007199254740992)) (F64.ofRat 100) =
      F64.fin (3504363460047667 / 140737488355328) := by decide!
  have m2 : F64.mul (F64.fin (2332864606977917 / 9007199254740992)) (F64.ofRat 100) =
      F64.fin (7290201896805991 / 281474976710656) := by decide!
  have t0 : ∀ pf : Platform, totalPoints pf "-" = 0 := by
    intro pf
    have : strconv.ParseFloat "-" = none := by decide
    simp [totalPoints, this]
  have t1 : ∀ pf : Platform, totalPoints pf "0.249" = 0 := by
    intro pf
    rw [totalPoints_of_parse pf _ _ p1, m1,
      toInt_of_truncToInt pf _ 0 (by decide!), toInt_of_truncToInt pf _ 24 (by decide!)]
    decide!
  have t2 : ∀ pf : Platform, totalPoints pf "0.259" = 25 := by
    intro pf
    rw [totalPoints_of_parse pf _ _ p2, m2,
      toInt_of_truncToInt pf _ 0 (by decide!), toInt_of_truncToInt pf _ 25 (by decide!)]
    decide!
  refine ⟨⟨p1, m1, by decide!, by decide!, ?_⟩, ⟨p2, m2, by decide!, by decide!, ?_⟩,
    ⟨p3, m3, by decide!, by decide!, ?_⟩⟩
  · intro pf
    rw [calculatePoints_target pf "0.249" (by rw [t1]) (by rw [t1]; decide),
      calculatePoints_target pf "-" (by rw [t0]) (by rw [t0]; decide), t0, t1]
  · intro pf
    rw [calculatePoints_target pf "0.259" (by rw [t2]; decide) (by rw [t2]; decide),
      calculatePoints_target pf "-" (by rw [t0]) (by rw [t0]; decide), t0, t2]
    ring
  · intro pf
    rw [calculatePoints_target pf "2.51" (by rw [t3]; decide) (by rw [t3]; decide),
      calculatePoints_target pf "-" (by rw [t0]) (by rw [t0]; decide), t0, t3]
    ring

/-- C2, as the code has it. For a receipt in which every price that the description
rule reads (the trimmed description has a length divisible by 3 and the price
parses) is a finite number between 0 and `2^63`, and whose rule contributions sum
to less than `2^63`, `calculatePoints` returns an integer that is `>= 0`. -/
theorem C2_points_nonneg (pf : Platform) (r : Receipt)
    (hprice : ∀ item ∈ r.Items, len (strings.TrimSpace item.ShortDescription) % 3 = 0 →
      ∀ p, strconv.ParseFloat item.Price = some p → ∃ q, p = F64.fin q ∧ 0 ≤ q ∧ q ≤ 2 ^ 63)
    (hsum : pointsSum pf r < 2 ^ 63) :
    0 ≤ calculatePoints pf r := by
  have h0 : 0 ≤ pointsSum pf r := by
    unfold pointsSum
    have h1 : 0 ≤ retailerPoints pf r.Retailer := Int.natCast_nonneg _
    have h2 := totalPoints_nonneg pf r.Total
    have h3 : 0 ≤ 5 * ((r.Items.length : Int) / 2) := by
      have : (0 : Int) ≤ (r.Items.length : Int) / 2 := by omega
      linarith
    have h4 := sum_itemPoints_nonneg pf r.Items hprice
    have h5 := datePoints_nonneg r.PurchaseDate
    have h6 := timePoints_nonneg r.PurchaseTime
    linarith
  rw [calculatePoints_eq, wrapInt_of_mem_range (by linarith) hsum]
  exact h0

/-- An instance of C2: a receipt with one item priced `12.25`. -/
theorem C2_points_nonneg_witness :
    0 ≤ calculatePoints amd64
      ⟨"Target", "2022-01-01", "13:01", [⟨"Emils Cheese Pizza", "12.25"⟩], "12.25"⟩ :=
  C2_points_nonneg amd64
    ⟨"Target", "2022-01-01", "13:01", [⟨"Emils Cheese Pizza", "12.25"⟩], "12.25"⟩
    (by
      intro item hmem _ p hp
      rw [List.mem_singleton] at hmem
      subst hmem
      have h : strconv.ParseFloat "12.25" = some (F64.fin (49 / 4)) := by decide!
      rw [show ({ ShortDescription := "Emils Cheese Pizza", Price := "12.25" } : Item).Price =
        "12.25" from rfl, h] at hp
      cases hp
      exact ⟨49 / 4, rfl, by norm_num, by norm_num⟩)
    (by decide!)

/-- C2, the claim as stated fails. The receipt of the retailer `Target`, bought on
2022-01-02 at 13:01 for the total `1.10`, with the single item `Gum` at the price
`-100`, earns `int(math.Ceil(-100 * 0.2)) = -20` points for the item and at most 6
for the retailer: it returns a negative integer, -14 with the ASCII tables. With two
items `Gum` at the non-negative price `40000000000000000000`, which earn
8000000000000000000 points each, the sum wraps around to a negative `int`. -/
theorem C2_counterexample :
    (∀ pf : Platform,
      calculatePoints pf ⟨"Target", "2022-01-02", "13:01", [⟨"Gum", "-100"⟩], "1.10"⟩ < 0) ∧
    calculatePoints amd64 ⟨"Target", "2022-01-02", "13:01", [⟨"Gum", "-100"⟩], "1.10"⟩ = -14 ∧
    (∀ pf : Platform,
      calculatePoints pf
          ⟨"Target", "2022-01-02", "13:01",
            [⟨"Gum", "40000000000000000000"⟩, ⟨"Gum", "40000000000000000000"⟩], "1.10"⟩ < 0) := by
  have i1 : ∀ pf : Platform, itemPoints pf ⟨"Gum", "-100"⟩ = -20 := fun pf =>
    itemPoints_of_representable pf _ (F64.fin (-100)) (-20) (by decide) (by decide!) (by decide!)
  have i2 : ∀ pf : Platform, itemPoints pf ⟨"Gum", "40000000000000000000"⟩ = 8000000000000000000 :=
    fun pf =>
      itemPoints_of_representable pf _ (F64.fin 40000000000000000000) 8000000000000000000
        (by decide) (by decide!) (by decide!)
  have pt : strconv.ParseFloat "1.10" = some (F64.fin (2476979795053773 / 2251799813685248)) := by
    decide!
  have t1 : ∀ pf : Platform, totalPoints pf "1.10" = 0 := by
    intro pf
    rw [totalPoints_of_parse pf _ _ pt,
      toInt_of_truncToInt pf _ 1 (by decide!), toInt_of_truncToInt pf _ 110 (by decide!)]
    decide!
  have h1 : datePoints "2022-01-02" = 0 := by decide
  have h2 : timePoints "13:01" = 0 := by decide
  refine ⟨?_, by decide!, ?_⟩
  · intro pf
    have h4 : retailerPoints pf "Target" ≤ 6 := retailerPoints_le_length pf "Target"
    have h3 := retailerPoints_nonneg pf "Target"
    rw [calculatePoints_eq]
    simp only [pointsSum, t1, h1, h2, i1, List.map_cons, List.map_nil, List.sum_cons,
      List.sum_nil, List.length_cons, List.length_nil]
    rw [wrapInt_of_mem_range]
    · norm_num
      linarith
    · norm_num
      linarith
    · norm_num
      linarith
  · intro pf
    have h4 : retailerPoints pf "Target" ≤ 6 := retailerPoints_le_length pf "Target"
    have h3 := retailerPoints_nonneg pf "Target"
    rw [calculatePoints_eq]
    simp only [pointsSum, t1, h1, h2, i2, List.map_cons, List.map_nil, List.sum_cons,
      List.sum_nil, List.length_cons, List.length_nil]
    unfold wrapInt
    norm_num
    omega

/-- C3. Afternoon rule. The points of a receipt are those of the same receipt with
an unparseable purchase time (the empty string) plus, in the arithmetic of `int`,
10 when the purchase time parses as hour:minute and lies in `[14:00, 16:00)`, which
is when its hour is 14 or 15, and plus 0 when it lies elsewhere or does not parse.
So `14:00` and `15:59` earn the 10 points, `16:00` and `13:59` earn none. -/
theorem C3_afternoon_window (pf : Platform) (r : Receipt) :
    time.ParseClock "" = none ∧
    calculatePoints pf r =
      addInt (calculatePoints pf { r with PurchaseTime := "" })
        (match time.ParseClock r.PurchaseTime with
          | some t =>
            if 14 * 60 ≤ t.Hour * 60 + t.Minute ∧ t.Hour * 60 + t.Minute < 16 * 60 then 10
            else 0
          | none => 0) ∧
    calculatePoints pf r =
      addInt (calculatePoints pf { r with PurchaseTime := "" })
        (match time.ParseClock r.PurchaseTime with
          | some t => if t.Hour = 14 ∨ t.Hour = 15 then 10 else 0
          | none => 0) ∧
    calculatePoints pf { r with PurchaseTime := "14:00" } =
      addInt (calculatePoints pf { r with PurchaseTime := "" }) 10 ∧
    calculatePoints pf { r with PurchaseTime := "15:59" } =
      addInt (calculatePoints pf { r with PurchaseTime := "" }) 10 ∧
    calculatePoints pf { r with PurchaseTime := "16:00" } =
      calculatePoints pf { r with PurchaseTime := "" } ∧
    calculatePoints pf { r with PurchaseTime := "13:59" } =
      calculatePoints pf { r with PurchaseTime := "" } := by
  have key : ∀ s : String, calculatePoints pf { r with PurchaseTime := s } =
      addInt (calculatePoints pf { r with PurchaseTime := "" }) (timePoints s) := by
    intro s
    apply calculatePoints_eq_addInt
    simp only [pointsSum, timePoints_empty]
    ring
  have hr : ({ r with PurchaseTime := r.PurchaseTime } : Receipt) = r := rfl
  have h1 : timePoints r.PurchaseTime =
      (match time.ParseClock r.PurchaseTime with
        | some t =>
          if 14 * 60 ≤ t.Hour * 60 + t.Minute ∧ t.Hour * 60 + t.Minute < 16 * 60 then 10
          else 0
        | none => 0) := by
    unfold timePoints
    cases hp : time.ParseClock r.PurchaseTime with
    | none => rfl
    | some t =>
      obtain ⟨hh, hm⟩ := ParseClock_range _ _ hp
      simp only [time.Time.Hour, time.Time.Minute]
      congr 1
      apply propext
      constructor <;> intro h <;> omega
  have h2 : timePoints r.PurchaseTime =
      (match time.ParseClock r.PurchaseTime with
        | some t => if t.Hour = 14 ∨ t.Hour = 15 then 10 else 0
        | none => 0) := by
    unfold timePoints
    cases hp : time.ParseClock r.PurchaseTime with
    | none => rfl
    | some t =>
      obtain ⟨hh, hm⟩ := ParseClock_range _ _ hp
      simp only [time.Time.Hour, time.Time.Minute]
      congr 1
      apply propext
      constructor <;> intro h <;> omega
  have e1 : timePoints "14:00" = 10 := by decide
  have e2 : timePoints "15:59" = 10 := by decide
  have e3 : timePoints "16:00" = 0 := by decide
  have e4 : timePoints "13:59" = 0 := by decide
  refine ⟨ParseClock_empty, ?_, ?_, ?_, ?_, ?_, ?_⟩
  · have := key r.PurchaseTime
    rw [hr, h1] at this
    exact this
  · have := key r.PurchaseTime
    rw [hr, h2] at this
    exact this
  · rw [key, e1]
  · rw [key, e2]
  · rw [key, e3]
    exact addInt_zero_calculatePoints pf _
  · rw [key, e4]
    exact addInt_zero_calculatePoints pf _

/-- C4, an item on which the code departs from the claim. The description `abc` has
trimmed length 3 and the price `1e20` parses; `price * 0.2` is 2e19, its own
ceiling, so the claim, like the comment of the rule, adds 20000000000000000000
points for the item. No `int` represents that value: on every platform the receipt
of the retailer `Target` with this item differs from the same receipt with the
price made unparseable by something else than 20000000000000000000, and on amd64,
where `int(2e19)` is `-2^63`, it returns -9223372036854775802 against 6. Within the
range of `int` the rule adds the ceiling: the same receipt with an item of white
space only at 12.25 earns 9, the 6 of the retailer and the ceiling 3 of 2.45. -/
theorem C4_description_beyond_int :
    len (strings.TrimSpace "abc") % 3 = 0 ∧
    strconv.ParseFloat "1e20" = some (F64.fin 100000000000000000000) ∧
    math.Ceil (F64.mul (F64.fin 100000000000000000000) (F64.ofRat (2 / 10))) =
      F64.fin 20000000000000000000 ∧
    ⌈(20000000000000000000 : ℚ)⌉ = 20000000000000000000 ∧
    (∀ pf : Platform,
      calculatePoints pf ⟨"Target", "2022-01-02", "13:01", [⟨"abc", "1e20"⟩], "1.10"⟩ ≠
        calculatePoints pf ⟨"Target", "2022-01-02", "13:01", [⟨"abc", "-"⟩], "1.10"⟩ +
          20000000000000000000) ∧
    calculatePoints amd64 ⟨"Target", "2022-01-02", "13:01", [⟨"abc", "1e20"⟩], "1.10"⟩ =
      -9223372036854775802 ∧
    calculatePoints amd64 ⟨"Target", "2022-01-02", "13:01", [⟨"abc", "-"⟩], "1.10"⟩ = 6 ∧
    calculatePoints amd64 ⟨"Target", "2022-01-02", "13:01", [⟨" \t ", "12.25"⟩], "1.10"⟩ = 9 := by
  refine ⟨by decide, by decide!, by decide!, ?_, ?_, by decide!, by decide!, by decide!⟩
  · exact Int.ceil_eq_iff.mpr ⟨by norm_num, by norm_num⟩
  · intro pf h
    rw [calculatePoints_eq, calculatePoints_eq] at h
    have h1 := wrapInt_upper
      (pointsSum pf ⟨"Target", "2022-01-02", "13:01", [⟨"abc", "1e20"⟩], "1.10"⟩)
    have h2 := wrapInt_lower
      (pointsSum pf ⟨"Target", "2022-01-02", "13:01", [⟨"abc", "-"⟩], "1.10"⟩)
    rw [h] at h1
    have e1 : (2 : Int) ^ 63 = 9223372036854775808 := by norm_num
    rw [e1] at h1 h2
    omega

/-- C5, a total on which the code departs from the claim. The total
`10000000000000000000` parses to the float64 of that value, which equals its own
integer truncation; no `int` represents it, and on every platform the receipt of the
retailer `Target`, bought on 2022-01-02 at 13:01, with the single item `Pepsi` at
1.25 and this total earns less than 50 points: the round-dollar rule adds nothing.
With the ASCII tables on amd64 it earns the 6 points of the retailer and no more. -/
theorem C5_round_dollar_beyond_int :
    strconv.ParseFloat "10000000000000000000" = some (F64.fin 10000000000000000000) ∧
    ((F64.trunc 10000000000000000000 : Int) : ℚ) = 10000000000000000000 ∧
    (∀ pf : Platform,
      calculatePoints pf
        ⟨"Target", "2022-01-02", "13:01", [⟨"Pepsi", "1.25"⟩], "10000000000000000000"⟩ < 50) ∧
    calculatePoints amd64
      ⟨"Target", "2022-01-02", "13:01", [⟨"Pepsi", "1.25"⟩], "10000000000000000000"⟩ = 6 := by
  have hp : strconv.ParseFloat "10000000000000000000" = some (F64.fin 10000000000000000000) := by
    decide!
  refine ⟨hp, by decide!, ?_, by decide!⟩
  intro pf
  obtain ⟨v, hv, hvabs⟩ := ofInt_toInt_abs_le pf (F64.fin 10000000000000000000)
  have hne : F64.eq (F64.ofInt (F64.toInt pf (F64.fin 10000000000000000000)))
      (F64.fin 10000000000000000000) = false := by
    rw [hv]
    show decide (v = 10000000000000000000) = false
    have hv1 : v ≤ 2 ^ 63 := le_trans (le_abs_self v) hvabs
    have : v ≠ 10000000000000000000 := by
      intro h
      rw [h] at hv1
      norm_num at hv1
    simp [this]
  have ht : totalPoints pf "10000000000000000000" =
      0 + (if Int.tmod (F64.toInt pf (F64.mul (F64.fin 10000000000000000000) (F64.ofRat 100))) 25 = 0
        then 25 else 0) := by
    rw [totalPoints_of_parse pf _ _ hp, hne]
    simp
  have hle : 0 ≤ totalPoints pf "10000000000000000000" ∧
      totalPoints pf "10000000000000000000" ≤ 25 := by
    rw [ht]
    split <;> norm_num
  have h4 : retailerPoints pf "Target" ≤ 6 := retailerPoints_le_length pf "Target"
  rw [calculatePoints_target pf _ hle.1 (by linarith [hle.2])]
  linarith [hle.2]

/-- C6. Odd-day rule. The points of a receipt are those of the same receipt with
an unparseable purchase date (the empty string) plus, in the arithmetic of `int`,
6 when the purchase date is a calendar date written `YYYY-MM-DD` whose day of the
month is odd, and plus 0 for every other string: an even day, another format, or a
day that does not exist such as `2022-02-31`. -/
theorem C6_odd_day (pf : Platform) (r : Receipt) :
    time.ParseDate "" = none ∧
    calculatePoints pf r =
      addInt (calculatePoints pf { r with PurchaseDate := "" })
        (if specOddCalendarDay r.PurchaseDate then 6 else 0) ∧
    calculatePoints pf { r with PurchaseDate := "2022-01-01" } =
      addInt (calculatePoints pf { r with PurchaseDate := "" }) 6 ∧
    calculatePoints pf { r with PurchaseDate := "2024-02-29" } =
      addInt (calculatePoints pf { r with PurchaseDate := "" }) 6 ∧
    calculatePoints pf { r with PurchaseDate := "2022-03-20" } =
      calculatePoints pf { r with PurchaseDate := "" } ∧
    calculatePoints pf { r with PurchaseDate := "2022-02-31" } =
      calculatePoints pf { r with PurchaseDate := "" } ∧
    calculatePoints pf { r with PurchaseDate := "2023-02-29" } =
      calculatePoints pf { r with PurchaseDate := "" } ∧
    calculatePoints pf { r with PurchaseDate := "2022-1-1" } =
      calculatePoints pf { r with PurchaseDate := "" } ∧
    calculatePoints pf { r with PurchaseDate := "01/01/2022" } =
      calculatePoints pf { r with PurchaseDate := "" } := by
  have key : ∀ s : String, calculatePoints pf { r with PurchaseDate := s } =
      addInt (calculatePoints pf { r with PurchaseDate := "" })
        (if specOddCalendarDay s then 6 else 0) := by
    intro s
    apply calculatePoints_eq_addInt
    simp only [pointsSum, datePoints_empty]
    rw [datePoints_eq_spec]
    ring
  have hr : ({ r with PurchaseDate := r.PurchaseDate } : Receipt) = r := rfl
  have h1 := key r.PurchaseDate
  rw [hr] at h1
  have e1 : specOddCalendarDay "2022-01-01" = true := by decide
  have e2 : specOddCalendarDay "2024-02-29" = true := by decide
  have e3 : specOddCalendarDay "2022-03-20" = false := by decide
  have e4 : specOddCalendarDay "2022-02-31" = false := by decide
  have e5 : specOddCalendarDay "2023-02-29" = false := by decide
  have e6 : specOddCalendarDay "2022-1-1" = false := by decide
  have e7 : specOddCalendarDay "01/01/2022" = false := by decide
  refine ⟨ParseDate_empty, h1, ?_, ?_, ?_, ?_, ?_, ?_, ?_⟩
  · rw [key, e1]; rfl
  · rw [key, e2]; rfl
  · rw [key, e3]; exact addInt_zero_calculatePoints pf _
  · rw [key, e4]; exact addInt_zero_calculatePoints pf _
  · rw [key, e5]; exact addInt_zero_calculatePoints pf _
  · rw [key, e6]; exact addInt_zero_calculatePoints pf _
  · rw [key, e7]; exact addInt_zero_calculatePoints pf _

/-- C7. Retailer rule. The points of a receipt are those of the same receipt with
an empty retailer plus, in the arithmetic of `int`, the number of characters of the
retailer that are letters or digits; when that sum is below `2^63` the difference
of the two results is exactly this number; characters that are neither (punctuation,
white space) add nothing. -/
theorem C7_retailer_alphanumeric (pf : Platform) (r : Receipt) :
    calculatePoints pf r =
      addInt (calculatePoints pf { r with Retailer := "" })
        (r.Retailer.toList.countP (fun c => pf.IsLetter c || pf.IsDigit c) : Nat) ∧
    (calculatePoints pf { r with Retailer := "" } +
          (r.Retailer.toList.countP (fun c => pf.IsLetter c || pf.IsDigit c) : Nat) < 2 ^ 63 →
      calculatePoints pf r - calculatePoints pf { r with Retailer := "" } =
        (r.Retailer.toList.countP (fun c => pf.IsLetter c || pf.IsDigit c) : Nat)) ∧
    (∀ s : String, (∀ c ∈ s.toList, pf.IsLetter c = false ∧ pf.IsDigit c = false) →
      calculatePoints pf { r with Retailer := s } = calculatePoints pf { r with Retailer := "" }) := by
  have key : ∀ s : String, calculatePoints pf { r with Retailer := s } =
      addInt (calculatePoints pf { r with Retailer := "" })
        (s.toList.countP (fun c => pf.IsLetter c || pf.IsDigit c) : Nat) := by
    intro s
    apply calculatePoints_eq_addInt
    simp only [pointsSum, retailerPoints_empty]
    unfold retailerPoints
    ring
  have hr : ({ r with Retailer := r.Retailer } : Receipt) = r := rfl
  have h1 := key r.Retailer
  rw [hr] at h1
  refine ⟨h1, ?_, ?_⟩
  · intro hfit
    rw [h1]
    unfold addInt
    rw [wrapInt_of_mem_range]
    · ring
    · have := wrapInt_lower (pointsSum pf { r with Retailer := "" })
      rw [← calculatePoints_eq] at this
      have hn : (0 : Int) ≤
          (r.Retailer.toList.countP (fun c => pf.IsLetter c || pf.IsDigit c) : Nat) :=
        Int.natCast_nonneg _
      linarith
    · exact hfit
  · intro s hs
    rw [key s]
    have h0 : s.toList.countP (fun c => pf.IsLetter c || pf.IsDigit c) = 0 := by
      rw [List.countP_eq_zero]
      intro c hc
      simp [hs c hc]
    rw [h0]
    exact addInt_zero_calculatePoints pf _

/-- An instance of C7: the retailer `M&M Corner Market` has 14 letters and digits, and
the retailer `& -` has none. -/
theorem C7_retailer_alphanumeric_witness :
    calculatePoints amd64
          ⟨"M&M Corner Market", "2022-03-20", "14:33", [⟨"Gatorade", "2.25"⟩], "9.00"⟩ -
        calculatePoints amd64 ⟨"", "2022-03-20", "14:33", [⟨"Gatorade", "2.25"⟩], "9.00"⟩ =
      ("M&M Corner Market".toList.countP (fun c => amd64.IsLetter c || amd64.IsDigit c) : Nat) ∧
    calculatePoints amd64 ⟨"& -", "2022-03-20", "14:33", [⟨"Gatorade", "2.25"⟩], "9.00"⟩ =
      calculatePoints amd64 ⟨"", "2022-03-20", "14:33", [⟨"Gatorade", "2.25"⟩], "9.00"⟩ :=
  ⟨(C7_retailer_alphanumeric amd64
      ⟨"M&M Corner Market", "2022-03-20", "14:33", [⟨"Gatorade", "2.25"⟩], "9.00"⟩).2.1
      (by decide!),
    (C7_retailer_alphanumeric amd64
      ⟨"M&M Corner Market", "2022-03-20", "14:33", [⟨"Gatorade", "2.25"⟩], "9.00"⟩).2.2
      "& -" (by decide)⟩

/-- C8. Item-pair rule. The points of a receipt with `n` items are those of the
same receipt without items plus, in the arithmetic of `int`, `5 * floor(n / 2)` for
the item count and what the items earn by the description rule. One item earns
nothing for the count, five items earn 10. -/
theorem C8_item_pairs (pf : Platform) (r : Receipt) :
    calculatePoints pf r =
      addInt (calculatePoints pf { r with Items := [] })
        (5 * ((r.Items.length / 2 : Nat) : Int) + (r.Items.map (itemPoints pf)).sum) ∧
    (∀ a : Item, calculatePoints pf { r with Items := [a] } =
      addInt (calculatePoints pf { r with Items := [] }) (0 + itemPoints pf a)) ∧
    (∀ a b c d e : Item, calculatePoints pf { r with Items := [a, b, c, d, e] } =
      addInt (calculatePoints pf { r with Items := [] })
        (10 + (itemPoints pf a + itemPoints pf b + itemPoints pf c + itemPoints pf d +
          itemPoints pf e))) := by
  have key : ∀ items : List Item, calculatePoints pf { r with Items := items } =
      addInt (calculatePoints pf { r with Items := [] })
        (5 * ((items.length / 2 : Nat) : Int) + (items.map (itemPoints pf)).sum) := by
    intro items
    apply calculatePoints_eq_addInt
    simp only [pointsSum, List.length_nil, List.map_nil, List.sum_nil]
    have : ((items.length : Int) / 2) = ((items.length / 2 : Nat) : Int) := by omega
    rw [this]
    norm_num
    ring
  refine ⟨key r.Items, ?_, ?_⟩
  · intro a
    rw [key]
    simp
  · intro a b c d e
    rw [key]
    simp only [List.length_cons, List.length_nil, List.map_cons, List.map_nil, List.sum_cons,
      List.sum_nil]
    norm_num
    congr 1
    ring

/-- C9. Graceful degradation. When the total, the purchase date, the purchase time
and every item price fail to parse, `calculatePoints` returns the number of letters
and digits of the retailer plus `5 * floor(n / 2)` for `n` items, as an `int`: that
very number when it is below `2^63`, as it is for every receipt that fits in memory.
More generally a field that fails to parse only drops the term of its own
rule from the sum of the contributions of the rules. -/
theorem C9_graceful_degradation (pf : Platform) (r : Receipt) :
    (strconv.ParseFloat r.Total = none → time.ParseDate r.PurchaseDate = none →
      time.ParseClock r.PurchaseTime = none →
      (∀ it ∈ r.Items, strconv.ParseFloat it.Price = none) →
      calculatePoints pf r =
          wrapInt
            (((r.Retailer.toList.countP (fun c => pf.IsLetter c || pf.IsDigit c) : Nat) : Int) +
              5 * ((r.Items.length / 2 : Nat) : Int)) ∧
        (((r.Retailer.toList.countP (fun c => pf.IsLetter c || pf.IsDigit c) : Nat) : Int) +
            5 * ((r.Items.length / 2 : Nat) : Int) < 2 ^ 63 →
          calculatePoints pf r =
            ((r.Retailer.toList.countP (fun c => pf.IsLetter c || pf.IsDigit c) : Nat) : Int) +
              5 * ((r.Items.length / 2 : Nat) : Int))) ∧
    (strconv.ParseFloat r.Total = none →
      calculatePoints pf r =
        wrapInt (retailerPoints pf r.Retailer + 5 * ((r.Items.length / 2 : Nat) : Int) +
          (r.Items.map (itemPoints pf)).sum + datePoints r.PurchaseDate +
          timePoints r.PurchaseTime)) ∧
    (time.ParseDate r.PurchaseDate = none →
      calculatePoints pf r =
        wrapInt (retailerPoints pf r.Retailer + totalPoints pf r.Total +
          5 * ((r.Items.length / 2 : Nat) : Int) + (r.Items.map (itemPoints pf)).sum +
          timePoints r.PurchaseTime)) ∧
    (time.ParseClock r.PurchaseTime = none →
      calculatePoints pf r =
        wrapInt (retailerPoints pf r.Retailer + totalPoints pf r.Total +
          5 * ((r.Items.length / 2 : Nat) : Int) + (r.Items.map (itemPoints pf)).sum +
          datePoints r.PurchaseDate)) ∧
    ((∀ it ∈ r.Items, strconv.ParseFloat it.Price = none) →
      calculatePoints pf r =
        wrapInt (retailerPoints pf r.Retailer + totalPoints pf r.Total +
          5 * ((r.Items.length / 2 : Nat) : Int) + datePoints r.PurchaseDate +
          timePoints r.PurchaseTime)) := by
  have hdiv : ((r.Items.length : Int) / 2) = ((r.Items.length / 2 : Nat) : Int) := by omega
  have hsum : pointsSum pf r =
      retailerPoints pf r.Retailer + totalPoints pf r.Total +
        5 * ((r.Items.length / 2 : Nat) : Int) + (r.Items.map (itemPoints pf)).sum +
        datePoints r.PurchaseDate + timePoints r.PurchaseTime := by
    unfold pointsSum
    rw [hdiv]
  refine ⟨?_, ?_, ?_, ?_, ?_⟩
  · intro hT hD hC hI
    have h0 : pointsSum pf r =
        ((r.Retailer.toList.countP (fun c => pf.IsLetter c || pf.IsDigit c) : Nat) : Int) +
          5 * ((r.Items.length / 2 : Nat) : Int) := by
      rw [hsum, sum_itemPoints_unparseable pf r.Items hI]
      simp only [retailerPoints, totalPoints, datePoints, timePoints, hT, hD, hC]
      ring
    refine ⟨by rw [calculatePoints_eq, h0], ?_⟩
    intro hfit
    rw [calculatePoints_eq, h0, wrapInt_of_mem_range]
    · have h1 : (0 : Int) ≤
          (r.Retailer.toList.countP (fun c => pf.IsLetter c || pf.IsDigit c) : Nat) :=
        Int.natCast_nonneg _
      have h2 : (0 : Int) ≤ ((r.Items.length / 2 : Nat) : Int) := Int.natCast_nonneg _
      have h3 : -(2 : Int) ^ 63 ≤ 0 := by norm_num
      linarith
    · exact hfit
  · intro hT
    rw [calculatePoints_eq, hsum]
    simp only [totalPoints, hT]
    congr 1
  · intro hD
    rw [calculatePoints_eq, hsum]
    simp only [datePoints, hD]
    congr 1
    ring
  · intro hC
    rw [calculatePoints_eq, hsum]
    simp only [timePoints, hC]
    congr 1
    ring
  · intro hI
    rw [calculatePoints_eq, hsum, sum_itemPoints_unparseable pf r.Items hI]
    congr 1
    ring

/-- An instance of C9: a receipt none of whose fields parse earns 14 points for the
retailer and 5 for three items. -/
theorem C9_graceful_degradation_witness :
    calculatePoints amd64
        ⟨"M&M Corner Market", "20 March", "2pm", [⟨"Gatorade", "two"⟩, ⟨"Water", ""⟩, ⟨"Tea", "1,5"⟩],
          "nine"⟩ =
      (("M&M Corner Market".toList.countP (fun c => amd64.IsLetter c || amd64.IsDigit c) : Nat) :
          Int) + 5 * ((3 / 2 : Nat) : Int) ∧
    calculatePoints amd64
        ⟨"M&M Corner Market", "20 March", "2pm", [⟨"Gatorade", "two"⟩, ⟨"Water", ""⟩, ⟨"Tea", "1,5"⟩],
          "nine"⟩ = 19 :=
  ⟨((C9_graceful_degradation amd64
      ⟨"M&M Corner Market", "20 March", "2pm",
        [⟨"Gatorade", "two"⟩, ⟨"Water", ""⟩, ⟨"Tea", "1,5"⟩], "nine"⟩).1
      (by decide!) (by decide!) (by decide!) (by decide!)).2 (by decide!),
    by decide!⟩

/-- C10. Submission validation. A decoded receipt whose retailer is empty, or whose
total is empty, or whose item list is empty is answered with status 400, not with
an id, and the store is left as it was. -/
theorem C10_submission_validation (pf : Platform) (receipts : Store) (uuid : String)
    (receipt : Receipt)
    (h : receipt.Retailer = "" ∨ receipt.Total = "" ∨ receipt.Items = []) :
    processReceipt pf receipts uuid (some receipt) =
      (Response.error 400 "Missing required fields in receipt", receipts) := by
  have h' : receipt.Retailer = "" ∨ receipt.Total = "" ∨ receipt.Items.length = 0 := by
    rcases h with h | h | h
    · exact Or.inl h
    · exact Or.inr (Or.inl h)
    · exact Or.inr (Or.inr (by simp [h]))
  unfold processReceipt
  simp only [h', if_true]

/-- An instance of C10: a receipt without items, submitted to an empty store. -/
theorem C10_submission_validation_witness :
    processReceipt amd64 (fun _ => none) "7fb1377b-b223-49d9-a31a-5a02701dd310"
        (some ⟨"Target", "2022-01-01", "13:01", [], "35.35"⟩) =
      (Response.error 400 "Missing required fields in receipt", fun _ => none) :=
  C10_submission_validation amd64 (fun _ => none) "7fb1377b-b223-49d9-a31a-5a02701dd310"
    ⟨"Target", "2022-01-01", "13:01", [], "35.35"⟩ (Or.inr (Or.inr rfl))

/-- C11. Round trip. A receipt with a non-empty retailer, a non-empty total and at
least one item is answered with status 200 and the generated identifier, and the
lookup of `/receipts/{id}/points` in the store that results returns exactly
`calculatePoints(receipt)`. -/
theorem C11_round_trip (pf : Platform) (receipts : Store) (uuid : String) (r : Receipt)
    (h₁ : r.Retailer ≠ "") (h₂ : r.Total ≠ "") (h₃ : r.Items ≠ []) :
    (processReceipt pf receipts uuid (some r)).1 = Response.id 200 uuid ∧
    getReceiptPoints (processReceipt pf receipts uuid (some r)).2 (pointsPath uuid) =
      Response.points 200 (calculatePoints pf r) := by
  rw [processReceipt_valid pf receipts uuid r h₁ h₂ h₃]
  refine ⟨rfl, ?_⟩
  rw [getReceiptPoints_pointsPath]
  simp only [store_load_same]

/-- An instance of C11: the receipt of the retailer `Target` submitted to the empty
store. -/
theorem C11_round_trip_witness :
    (processReceipt amd64 Store.empty "7fb1377b-b223-49d9-a31a-5a02701dd310"
        (some ⟨"Target", "2022-01-02", "13:01", [⟨"Pepsi", "1.25"⟩], "1.25"⟩)).1 =
      Response.id 200 "7fb1377b-b223-49d9-a31a-5a02701dd310" ∧
    getReceiptPoints
        (processReceipt amd64 Store.empty "7fb1377b-b223-49d9-a31a-5a02701dd310"
          (some ⟨"Target", "2022-01-02", "13:01", [⟨"Pepsi", "1.25"⟩], "1.25"⟩)).2
        (pointsPath "7fb1377b-b223-49d9-a31a-5a02701dd310") =
      Response.points 200
        (calculatePoints amd64 ⟨"Target", "2022-01-02", "13:01", [⟨"Pepsi", "1.25"⟩], "1.25"⟩) :=
  C11_round_trip amd64 Store.empty "7fb1377b-b223-49d9-a31a-5a02701dd310"
    ⟨"Target", "2022-01-02", "13:01", [⟨"Pepsi", "1.25"⟩], "1.25"⟩
    (by decide) (by decide) (by simp)

/-- C12. Unknown id. In every store reached from the empty store by a sequence of
submissions, the lookup of an identifier that no submission returned answers 404
`Not Found`, whatever the store holds; so does the lookup, in any store, of an
identifier that is not a key of it. -/
theorem C12_unknown_id (pf : Platform) (subs : List Submission) (id : String)
    (h : id ∉ returnedIds pf Store.empty subs) :
    getReceiptPoints (submitAll pf Store.empty subs) (pointsPath id) =
      Response.error 404 "Not Found" ∧
    ∀ receipts : Store, receipts.load id = none →
      getReceiptPoints receipts (pointsPath id) = Response.error 404 "Not Found" := by
  have key : ∀ receipts : Store, receipts.load id = none →
      getReceiptPoints receipts (pointsPath id) = Response.error 404 "Not Found" := by
    intro receipts hr
    rw [getReceiptPoints_pointsPath]
    have hr2 : receipts id = none := hr
    rw [hr2]
  exact ⟨key _ (submitAll_keys pf subs Store.empty id rfl h), key⟩

/-- An instance of C12: after one accepted and one rejected submission, the lookup
of an id that neither returned. -/
theorem C12_unknown_id_witness :
    "3c5e7a90-0000-4000-8000-000000000000" ∉ returnedIds amd64 Store.empty
      [("7fb1377b-b223-49d9-a31a-5a02701dd310",
          some ⟨"Target", "2022-01-02", "13:01", [⟨"Pepsi", "1.25"⟩], "1.25"⟩),
        ("adb6b560-0eef-42bc-9d16-df48f30e89b2", none)] ∧
    getReceiptPoints
      (submitAll amd64 Store.empty
        [("7fb1377b-b223-49d9-a31a-5a02701dd310",
            some ⟨"Target", "2022-01-02", "13:01", [⟨"Pepsi", "1.25"⟩], "1.25"⟩),
          ("adb6b560-0eef-42bc-9d16-df48f30e89b2", none)])
      (pointsPath "3c5e7a90-0000-4000-8000-000000000000") = Response.error 404 "Not Found" :=
  ⟨by decide, (C12_unknown_id amd64 _ _ (by decide)).1⟩

/-- C13, a submission that updates an existing id. `sync.Map.Store` replaces the
value of a key that is present. In the store that holds the receipt of the retailer
`Target` with the total `1.10` under the id `7fb1377b-b223-49d9-a31a-5a02701dd310`,
with 6 points, a further submission of the same receipt with the total `0.25` for
which the same id is generated is answered with that id, and the id then maps to 31
points. -/
theorem C13_counterexample :
    Option.map ReceiptData.Points
      ((processReceipt amd64 Store.empty "7fb1377b-b223-49d9-a31a-5a02701dd310"
        (some ⟨"Target", "2022-01-02", "13:01", [⟨"Pepsi", "1.25"⟩], "1.10"⟩)).2.load
          "7fb1377b-b223-49d9-a31a-5a02701dd310") = some 6 ∧
    (processReceipt amd64
      (processReceipt amd64 Store.empty "7fb1377b-b223-49d9-a31a-5a02701dd310"
        (some ⟨"Target", "2022-01-02", "13:01", [⟨"Pepsi", "1.25"⟩], "1.10"⟩)).2
      "7fb1377b-b223-49d9-a31a-5a02701dd310"
      (some ⟨"Target", "2022-01-02", "13:01", [⟨"Pepsi", "1.25"⟩], "0.25"⟩)).1 =
        Response.id 200 "7fb1377b-b223-49d9-a31a-5a02701dd310" ∧
    Option.map ReceiptData.Points
      ((processReceipt amd64
        (processReceipt amd64 Store.empty "7fb1377b-b223-49d9-a31a-5a02701dd310"
          (some ⟨"Target", "2022-01-02", "13:01", [⟨"Pepsi", "1.25"⟩], "1.10"⟩)).2
        "7fb1377b-b223-49d9-a31a-5a02701dd310"
        (some ⟨"Target", "2022-01-02", "13:01", [⟨"Pepsi", "1.25"⟩], "0.25"⟩)).2.load
          "7fb1377b-b223-49d9-a31a-5a02701dd310") = some 31 := by
  refine ⟨by decide!, by decide!, by decide!⟩

/-- C13, amended. The store keeps the record of an id through every further
submission that is not stored under that same id: if an id is present with the
record `rData`, then after a submission for which another id is generated, or
which is answered with an error, the id still maps to `rData`. -/
theorem C13_store_keeps_other_ids (pf : Platform) (receipts : Store) (id uuid : String)
    (rData : ReceiptData) (body : Option Receipt) (h : receipts.load id = some rData)
    (hne : uuid ≠ id ∨ ∃ msg, (processReceipt pf receipts uuid body).1 = Response.error 400 msg) :
    (processReceipt pf receipts uuid body).2.load id = some rData := by
  rcases processReceipt_store pf receipts uuid body with ⟨rData', hp⟩ | ⟨msg, hp⟩
  · rw [hp]
    rcases hne with hne | ⟨msg, hmsg⟩
    · exact (store_load_other receipts uuid id rData' (Ne.symm hne)).trans h
    · rw [hp] at hmsg
      exact absurd hmsg (by simp)
  · rw [hp]
    exact h

/-- An instance of C13, amended: a second submission stored under another id. -/
theorem C13_store_keeps_other_ids_witness :
    (processReceipt amd64
      (processReceipt amd64 Store.empty "7fb1377b-b223-49d9-a31a-5a02701dd310"
        (some ⟨"Target", "2022-01-02", "13:01", [⟨"Pepsi", "1.25"⟩], "1.10"⟩)).2
      "adb6b560-0eef-42bc-9d16-df48f30e89b2"
      (some ⟨"Target", "2022-01-02", "13:01", [⟨"Pepsi", "1.25"⟩], "0.25"⟩)).2.load
        "7fb1377b-b223-49d9-a31a-5a02701dd310" =
      some ⟨"7fb1377b-b223-49d9-a31a-5a02701dd310",
        calculatePoints amd64 ⟨"Target", "2022-01-02", "13:01", [⟨"Pepsi", "1.25"⟩], "1.10"⟩⟩ :=
  C13_store_keeps_other_ids amd64 _ "7fb1377b-b223-49d9-a31a-5a02701dd310"
    "adb6b560-0eef-42bc-9d16-df48f30e89b2" _ _ rfl (Or.inl (by decide))

/-- C14. No dedup. A receipt that passes the validation, submitted twice with two
distinct generated ids, is stored twice: after the second submission the lookup of
either id returns `calculatePoints(receipt)`, and the record of the first id is the
one the first submission stored. -/
theorem C14_no_dedup (pf : Platform) (receipts : Store) (id₁ id₂ : String) (r : Receipt)
    (h₁ : r.Retailer ≠ "") (h₂ : r.Total ≠ "") (h₃ : r.Items ≠ []) (hne : id₁ ≠ id₂) :
    (processReceipt pf receipts id₁ (some r)).1 = Response.id 200 id₁ ∧
    (processReceipt pf (processReceipt pf receipts id₁ (some r)).2 id₂ (some r)).1 =
      Response.id 200 id₂ ∧
    getReceiptPoints
      (processReceipt pf (processReceipt pf receipts id₁ (some r)).2 id₂ (some r)).2
      (pointsPath id₁) = Response.points 200 (calculatePoints pf r) ∧
    getReceiptPoints
      (processReceipt pf (processReceipt pf receipts id₁ (some r)).2 id₂ (some r)).2
      (pointsPath id₂) = Response.points 200 (calculatePoints pf r) ∧
    (processReceipt pf (processReceipt pf receipts id₁ (some r)).2 id₂ (some r)).2.load id₁ =
      (processReceipt pf receipts id₁ (some r)).2.load id₁ := by
  rw [processReceipt_valid pf receipts id₁ r h₁ h₂ h₃, processReceipt_valid pf _ id₂ r h₁ h₂ h₃]
  have e₁ : ((receipts.store id₁ ⟨id₁, calculatePoints pf r⟩).store id₂
      ⟨id₂, calculatePoints pf r⟩) id₁ = some ⟨id₁, calculatePoints pf r⟩ :=
    (store_load_other _ _ _ _ hne).trans (store_load_same _ _ _)
  refine ⟨rfl, rfl, ?_, ?_, ?_⟩
  · rw [getReceiptPoints_pointsPath]
    simp only [e₁]
  · rw [getReceiptPoints_pointsPath]
    simp only [store_load_same]
  · exact e₁.trans (store_load_same _ _ _).symm

/-- An instance of C14: the receipt of the retailer `Target` submitted twice to the
empty store. -/
theorem C14_no_dedup_witness :
    getReceiptPoints
      (processReceipt amd64 (processReceipt amd64 Store.empty
        "7fb1377b-b223-49d9-a31a-5a02701dd310"
        (some ⟨"Target", "2022-01-02", "13:01", [⟨"Pepsi", "1.25"⟩], "1.25"⟩)).2
        "adb6b560-0eef-42bc-9d16-df48f30e89b2"
        (some ⟨"Target", "2022-01-02", "13:01", [⟨"Pepsi", "1.25"⟩], "1.25"⟩)).2
      (pointsPath "7fb1377b-b223-49d9-a31a-5a02701dd310") =
    Response.points 200
      (calculatePoints amd64 ⟨"Target", "2022-01-02", "13:01", [⟨"Pepsi", "1.25"⟩], "1.25"⟩) :=
  (C14_no_dedup amd64 Store.empty "7fb1377b-b223-49d9-a31a-5a02701dd310"
    "adb6b560-0eef-42bc-9d16-df48f30e89b2"
    ⟨"Target", "2022-01-02", "13:01", [⟨"Pepsi", "1.25"⟩], "1.25"⟩
    (by decide) (by decide) (by simp) (by decide)).2.2.1

/-- C15, totals on which the code departs from the claim. No rule reads whether the
total exceeds 10.00: the receipt of the retailer `Target` earns the same points with
the total `9.10` as with `11.10`, on every platform. The totals `400000000000001`
and `10000000000000000000` both parse, both to whole-dollar values, and on amd64
neither earns the quarter bonus; yet the receipt earns 56 points with the first and
6 with the second, which no `int` represents and which the round-dollar test
therefore misses. -/
theorem C15_total_above_ten :
    (∀ pf : Platform,
      calculatePoints pf ⟨"Target", "2022-01-02", "13:01", [⟨"Pepsi", "1.25"⟩], "9.10"⟩ =
        calculatePoints pf ⟨"Target", "2022-01-02", "13:01", [⟨"Pepsi", "1.25"⟩], "11.10"⟩) ∧
    strconv.ParseFloat "400000000000001" = some (F64.fin 400000000000001) ∧
    strconv.ParseFloat "10000000000000000000" = some (F64.fin 10000000000000000000) ∧
    ((F64.trunc 400000000000001 : Int) : ℚ) = 400000000000001 ∧
    ((F64.trunc 10000000000000000000 : Int) : ℚ) = 10000000000000000000 ∧
    Int.tmod (F64.toInt amd64 (F64.mul (F64.fin 400000000000001) (F64.ofRat 100))) 25 ≠ 0 ∧
    Int.tmod (F64.toInt amd64 (F64.mul (F64.fin 10000000000000000000) (F64.ofRat 100))) 25 ≠ 0 ∧
    calculatePoints amd64
      ⟨"Target", "2022-01-02", "13:01", [⟨"Pepsi", "1.25"⟩], "400000000000001"⟩ = 56 ∧
    calculatePoints amd64
      ⟨"Target", "2022-01-02", "13:01", [⟨"Pepsi", "1.25"⟩], "10000000000000000000"⟩ = 6 := by
  have p1 : strconv.ParseFloat "9.10" = some (F64.fin (5122844576133939 / 562949953421312)) := by
    decide!
  have p2 : strconv.ParseFloat "11.10" = some (F64.fin (6248744482976563 / 562949953421312)) := by
    decide!
  have t1 : ∀ pf : Platform, totalPoints pf "9.10" = 0 := by
    intro pf
    rw [totalPoints_of_parse pf _ _ p1,
      toInt_of_truncToInt pf (F64.fin (5122844576133939 / 562949953421312)) 9 (by decide!),
      toInt_of_truncToInt pf _ 910 (by decide!)]
    decide!
  have t2 : ∀ pf : Platform, totalPoints pf "11.10" = 0 := by
    intro pf
    rw [totalPoints_of_parse pf _ _ p2,
      toInt_of_truncToInt pf (F64.fin (6248744482976563 / 562949953421312)) 11 (by decide!),
      toInt_of_truncToInt pf _ 1110 (by decide!)]
    decide!
  refine ⟨?_, by decide!, by decide!, by decide!, by decide!, by decide!, by decide!,
    by decide!, by decide!⟩
  intro pf
  exact calculatePoints_congr_total pf
    ⟨"Target", "2022-01-02", "13:01", [⟨"Pepsi", "1.25"⟩], ""⟩ "9.10" "11.10"
    ((t1 pf).trans (t2 pf).symm)

/-- C16, a total on which the code departs from the claim. The total
`90071992547410.25` parses to 360287970189641/4 exactly, a multiple of 0.25. Its
product with 100, 9007199254741025, is not a float64: `floatVal*100` is
9007199254741024, which leaves 24 modulo 25, and on every platform the receipt of
the retailer `Target` earns with this total what it earns with the unparseable total
`-`: no quarter bonus. -/
theorem C16_quarter_multiple_inexact_product :
    strconv.ParseFloat "90071992547410.25" = some (F64.fin (360287970189641 / 4)) ∧
    (360287970189641 / 4 : ℚ) = 360287970189641 * (25 / 100) ∧
    F64.mul (F64.fin (360287970189641 / 4)) (F64.ofRat 100) = F64.fin 9007199254741024 ∧
    (9007199254741024 : Int) % 25 = 24 ∧
    ∀ pf : Platform,
      calculatePoints pf
          ⟨"Target", "2022-01-02", "13:01", [⟨"Pepsi", "1.25"⟩], "90071992547410.25"⟩ =
        calculatePoints pf ⟨"Target", "2022-01-02", "13:01", [⟨"Pepsi", "1.25"⟩], "-"⟩ := by
  have p : strconv.ParseFloat "90071992547410.25" = some (F64.fin (360287970189641 / 4)) := by
    decide!
  have m : F64.mul (F64.fin (360287970189641 / 4)) (F64.ofRat 100) =
      F64.fin 9007199254741024 := by decide!
  have t : ∀ pf : Platform, totalPoints pf "90071992547410.25" = 0 := by
    intro pf
    rw [totalPoints_of_parse pf _ _ p, m,
      toInt_of_truncToInt pf (F64.fin (360287970189641 / 4)) 90071992547410 (by decide!),
      toInt_of_truncToInt pf _ 9007199254741024 (by decide!)]
    decide!
  have t0 : ∀ pf : Platform, totalPoints pf "-" = 0 := by
    intro pf
    have h : strconv.ParseFloat "-" = none := by decide!
    unfold totalPoints
    rw [h]
  refine ⟨p, by norm_num, m, by decide, ?_⟩
  intro pf
  exact calculatePoints_congr_total pf
    ⟨"Target", "2022-01-02", "13:01", [⟨"Pepsi", "1.25"⟩], ""⟩ _ _ ((t pf).trans (t0 pf).symm)

/-- C17, descriptions on which the rule does not follow the character count. The
rule measures `len(trimmedDesc)`, the number of bytes. `Thé` has 3 characters and 4
bytes: the rule does not fire, although it fires for `The`, of the same character
count. `né` has 2 characters and 3 bytes: the rule fires. On amd64 the receipt of
the retailer `Target` with the total `1.10` earns 6 points with the item `Thé` at
1.25, and 7 points with the item `The`, or the item `né`, at 1.25. -/
theorem C17_counterexample :
    (strings.TrimSpace "Thé").length = 3 ∧ (strings.TrimSpace "The").length = 3 ∧
    (strings.TrimSpace "né").length = 2 ∧
    len (strings.TrimSpace "Thé") = 4 ∧ len (strings.TrimSpace "né") = 3 ∧
    (∀ pf : Platform, itemPoints pf ⟨"Thé", "1.25"⟩ = 0 ∧ itemPoints pf ⟨"The", "1.25"⟩ = 1 ∧
      itemPoints pf ⟨"né", "1.25"⟩ = 1) ∧
    calculatePoints amd64 ⟨"Target", "2022-01-02", "13:01", [⟨"Thé", "1.25"⟩], "1.10"⟩ = 6 ∧
    calculatePoints amd64 ⟨"Target", "2022-01-02", "13:01", [⟨"The", "1.25"⟩], "1.10"⟩ = 7 ∧
    calculatePoints amd64 ⟨"Target", "2022-01-02", "13:01", [⟨"né", "1.25"⟩], "1.10"⟩ = 7 := by
  have hp : strconv.ParseFloat "1.25" = some (F64.fin (5 / 4)) := by decide!
  have hk : F64.truncToInt (math.Ceil (F64.mul (F64.fin (5 / 4)) (F64.ofRat (2 / 10)))) =
      some 1 := by decide!
  refine ⟨by decide, by decide, by decide, by decide, by decide, ?_, by decide!, by decide!,
    by decide!⟩
  intro pf
  exact ⟨itemPoints_of_length pf _ (by decide),
    itemPoints_of_representable pf ⟨"The", "1.25"⟩ _ 1 (by decide) hp hk,
    itemPoints_of_representable pf ⟨"né", "1.25"⟩ _ 1 (by decide) hp hk⟩

/-- C17, amended. The description rule measures the trimmed description in bytes of
its UTF-8 encoding. The points of a receipt are those of the same receipt with every
item price made unparseable plus, in the arithmetic of `int`, the sum over the items
of `int(math.Ceil(price * 0.2))` when the bytes that the characters left after
trimming take, summed, are a multiple of 3 and the price parses, and of 0 otherwise.
Replacing each description by one of the same trimmed byte count leaves the points
as they are; so does replacing each by one of the same trimmed character count when
the characters left after trimming are all ASCII on both sides. -/
theorem C17_description_length_bytes (pf : Platform) (r : Receipt) :
    calculatePoints pf r =
      addInt
        (calculatePoints pf
          { r with Items := r.Items.map (fun it => ({ it with Price := "" } : Item)) })
        (r.Items.map (fun item =>
          if ((strings.TrimSpace item.ShortDescription).toList.map Char.utf8Size).sum % 3 = 0 then
            match strconv.ParseFloat item.Price with
            | some price => F64.toInt pf (math.Ceil (F64.mul price (F64.ofRat (2 / 10))))
            | none => 0
          else 0)).sum ∧
    (∀ items : List Item,
      List.Forall₂ (fun a b : Item => a.Price = b.Price ∧
        ((strings.TrimSpace a.ShortDescription).toList.map Char.utf8Size).sum =
          ((strings.TrimSpace b.ShortDescription).toList.map Char.utf8Size).sum) items r.Items →
      calculatePoints pf { r with Items := items } = calculatePoints pf r) ∧
    (∀ items : List Item,
      List.Forall₂ (fun a b : Item => a.Price = b.Price ∧
        (∀ c ∈ (strings.TrimSpace a.ShortDescription).toList, c.toNat < 128) ∧
        (∀ c ∈ (strings.TrimSpace b.ShortDescription).toList, c.toNat < 128) ∧
        (strings.TrimSpace a.ShortDescription).length =
          (strings.TrimSpace b.ShortDescription).length) items r.Items →
      calculatePoints pf { r with Items := items } = calculatePoints pf r) := by
  refine ⟨?_, ?_, ?_⟩
  · rw [calculatePoints_items pf r]
    have : itemPoints pf = (fun item : Item =>
        if ((strings.TrimSpace item.ShortDescription).toList.map Char.utf8Size).sum % 3 = 0 then
          match strconv.ParseFloat item.Price with
          | some price => F64.toInt pf (math.Ceil (F64.mul price (F64.ofRat (2 / 10))))
          | none => 0
        else 0) := by
      funext item
      exact itemPoints_eq_bytes pf item
    rw [this]
  · intro items h
    apply calculatePoints_congr_items
    refine h.imp ?_
    intro a b hab
    exact itemPoints_congr pf a b hab.1 (by
      rw [len_eq_sum_utf8Size, len_eq_sum_utf8Size]
      exact hab.2)
  · intro items h
    apply calculatePoints_congr_items
    refine h.imp ?_
    intro a b hab
    exact itemPoints_congr pf a b hab.1 (by
      rw [len_eq_length_of_ascii _ hab.2.1, len_eq_length_of_ascii _ hab.2.2.1]
      exact hab.2.2.2)

/-- An instance of C17, amended: the descriptions `né` and `The`, of 3 bytes each,
earn the same, and the receipt with the item `Thé`, of 4 bytes, earns the 6 points
of the receipt with the price made unparseable. -/
theorem C17_description_length_bytes_witness :
    calculatePoints amd64 ⟨"Target", "2022-01-02", "13:01", [⟨"né", "1.25"⟩], "1.10"⟩ =
      calculatePoints amd64 ⟨"Target", "2022-01-02", "13:01", [⟨"The", "1.25"⟩], "1.10"⟩ ∧
    calculatePoints amd64 ⟨"Target", "2022-01-02", "13:01", [⟨"Thé", "1.25"⟩], "1.10"⟩ =
      addInt (calculatePoints amd64 ⟨"Target", "2022-01-02", "13:01", [⟨"Thé", ""⟩], "1.10"⟩)
        ([(⟨"Thé", "1.25"⟩ : Item)].map (fun item =>
          if ((strings.TrimSpace item.ShortDescription).toList.map Char.utf8Size).sum % 3 = 0 then
            match strconv.ParseFloat item.Price with
            | some price => F64.toInt amd64 (math.Ceil (F64.mul price (F64.ofRat (2 / 10))))
            | none => 0
          else 0)).sum :=
  ⟨(C17_description_length_bytes amd64 ⟨"Target", "2022-01-02", "13:01", [⟨"The", "1.25"⟩], "1.10"⟩).2.1
      [⟨"né", "1.25"⟩] (List.Forall₂.cons ⟨rfl, by decide⟩ List.Forall₂.nil),
    (C17_description_length_bytes amd64 ⟨"Target", "2022-01-02", "13:01", [⟨"Thé", "1.25"⟩], "1.10"⟩).1⟩

/-- C18, a total that earns the 50 points alone. The total `400000000000001` parses
to that whole value, which an `int` represents, so the round-dollar rule awards 50.
Its product with 100, 40000000000000100, is not a float64: `floatVal*100` is
40000000000000096, which leaves 21 modulo 25, so the quarter rule awards nothing.
On every platform the two rules of the total contribute 50, and the receipt of the
retailer `Target` earns 50 points more with this total than with the unparseable
total `-`. -/
theorem C18_round_dollar_without_quarter :
    strconv.ParseFloat "400000000000001" = some (F64.fin 400000000000001) ∧
    F64.mul (F64.fin 400000000000001) (F64.ofRat 100) = F64.fin 40000000000000096 ∧
    (40000000000000096 : Int) % 25 = 21 ∧
    ∀ pf : Platform,
      totalPoints pf "400000000000001" = 50 ∧
      calculatePoints pf
          ⟨"Target", "2022-01-02", "13:01", [⟨"Pepsi", "1.25"⟩], "400000000000001"⟩ =
        calculatePoints pf ⟨"Target", "2022-01-02", "13:01", [⟨"Pepsi", "1.25"⟩], "-"⟩ + 50 := by
  have p : strconv.ParseFloat "400000000000001" = some (F64.fin 400000000000001) := by
    decide!
  have m : F64.mul (F64.fin 400000000000001) (F64.ofRat 100) =
      F64.fin 40000000000000096 := by decide!
  have t : ∀ pf : Platform, totalPoints pf "400000000000001" = 50 := by
    intro pf
    rw [totalPoints_of_parse pf _ _ p, m,
      toInt_of_truncToInt pf (F64.fin 400000000000001) 400000000000001 (by decide!),
      toInt_of_truncToInt pf _ 40000000000000096 (by decide!)]
    decide!
  have t0 : ∀ pf : Platform, totalPoints pf "-" = 0 := by
    intro pf
    have h : strconv.ParseFloat "-" = none := by decide!
    unfold totalPoints
    rw [h]
  refine ⟨p, m, by decide, ?_⟩
  intro pf
  refine ⟨t pf, ?_⟩
  rw [calculatePoints_target pf _ (by rw [t pf]; norm_num) (by rw [t pf]; norm_num),
    calculatePoints_target pf _ (by rw [t0 pf]) (by rw [t0 pf]; norm_num), t pf, t0 pf]
  ring

/-- C19. The points of a receipt do not depend on the order of its items: a receipt
whose item list is a permutation of that of another, and which is otherwise the
same, earns the same points. -/
theorem C19_item_order (pf : Platform) (r : Receipt) (items : List Item)
    (h : items.Perm r.Items) :
    calculatePoints pf { r with Items := items } = calculatePoints pf r := by
  rw [calculatePoints_eq, calculatePoints_eq]
  congr 1
  unfold pointsSum
  have h1 : items.length = r.Items.length := h.length_eq
  have h2 : (items.map (itemPoints pf)).sum = (r.Items.map (itemPoints pf)).sum :=
    (h.map (itemPoints pf)).sum_eq
  show retailerPoints pf r.Retailer + totalPoints pf r.Total + 5 * ((items.length : Int) / 2) +
    (items.map (itemPoints pf)).sum + datePoints r.PurchaseDate + timePoints r.PurchaseTime = _
  rw [h1, h2]

/-- An instance of C19: two items in either order. -/
theorem C19_item_order_witness :
    calculatePoints amd64
        ⟨"Target", "2022-01-02", "13:01", [⟨"Gum", "2.25"⟩, ⟨"Pepsi", "1.25"⟩], "3.50"⟩ =
      calculatePoints amd64
        ⟨"Target", "2022-01-02", "13:01", [⟨"Pepsi", "1.25"⟩, ⟨"Gum", "2.25"⟩], "3.50"⟩ :=
  C19_item_order amd64
    ⟨"Target", "2022-01-02", "13:01", [⟨"Pepsi", "1.25"⟩, ⟨"Gum", "2.25"⟩], "3.50"⟩
    [⟨"Gum", "2.25"⟩, ⟨"Pepsi", "1.25"⟩] (List.Perm.swap _ _ _)

/-- C20. The identifier extraction of the lookup handler inverts the construction
of the path: for every string `id`, whether or not it starts with `/receipts/` or
ends with `/points` itself, stripping the prefix `/receipts/` and then the suffix
`/points` from `/receipts/` + id + `/points` gives back `id`, and in every store the
handler answers that path with the record stored under `id`, or with 404 when
there is none. So it does for the id `/receipts/a/points`. -/
theorem C20_path_round_trip (receipts : Store) (id : String) :
    strings.TrimSuffix (strings.TrimPrefix ("/receipts/" ++ id ++ "/points") "/receipts/")
      "/points" = id ∧
    getReceiptPoints receipts ("/receipts/" ++ id ++ "/points") =
      (match receipts.load id with
      | none => Response.error 404 "Not Found"
      | some receiptData => Response.points 200 receiptData.Points) ∧
    getReceiptPoints (Store.empty.store "/receipts/a/points" ⟨"/receipts/a/points", 7⟩)
      "/receipts//receipts/a/points/points" = Response.points 200 7 ∧
    getReceiptPoints (Store.empty.store "/receipts/a/points" ⟨"/receipts/a/points", 7⟩)
      "/receipts/a/points" = Response.error 404 "Not Found" :=
  ⟨trim_pointsPath id, getReceiptPoints_pointsPath receipts id, by decide, by decide⟩

end ReceiptProcessor
